import Mathlib

/-!
# Verification of the `hashfile` streaming CRC32 integrity stamper

A shallow embedding of the Go package `hashfile` (file `hashfile.go`).
File contents are byte lists (`List Nat`, each element a byte value).
Go strings (comment styles, the marker key) become byte lists via `strBytes`.
The streaming reader (`io.Reader`) is modelled by a list of chunks, one per
`Read` call; end-of-stream (`io.EOF`) is reported together with the chunk
that exhausts the list, so a trailing empty chunk models a reader that
reports EOF on a separate zero-byte read (the `os.File` behaviour), while a
non-empty final chunk models a reader returning data together with EOF.
A `none` result models a Go run that faults: either a slice-bounds panic
(`buffer[:n-windowSize]` with `n < windowSize`) or an impossible read that
returns more bytes than the free buffer space.
-/

/-- Bytes of an ASCII Go string literal. -/
def strBytes (s : String) : List Nat := s.toList.map Char.toNat

/-- Bytes of the fixed marker key `"FileIntegrity: "`. -/
def keyBytes : List Nat := strBytes "FileIntegrity: "

/-- `CommentStyle` from the source: comment text before and after the marker.
`pre` is the Go field `Prefix`, `suf` the Go field `Suffix`, as byte lists. -/
structure CommentStyle where
  pre : List Nat
  suf : List Nat
deriving DecidableEq, Repr

/-- Predefined comment styles (source lines 30-39). -/
def GoStyle : CommentStyle := ⟨strBytes "// ", strBytes ""⟩

def CStyle : CommentStyle := ⟨strBytes "// ", strBytes ""⟩

def PythonStyle : CommentStyle := ⟨strBytes "# ", strBytes ""⟩

def SQLStyle : CommentStyle := ⟨strBytes "-- ", strBytes ""⟩

def HTMLStyle : CommentStyle := ⟨strBytes "<!-- ", strBytes " -->"⟩

def ShellStyle : CommentStyle := ⟨strBytes "# ", strBytes ""⟩

def RubyStyle : CommentStyle := ⟨strBytes "# ", strBytes ""⟩

def JSStyle : CommentStyle := ⟨strBytes "// ", strBytes ""⟩

/-- The eight predefined styles, in source order. -/
def predefinedStyles : List CommentStyle :=
  [GoStyle, CStyle, PythonStyle, SQLStyle, HTMLStyle, ShellStyle, RubyStyle, JSStyle]

/-- `Config` from the source: a comment style plus the streaming buffer size. -/
structure Config where
  style : CommentStyle
  bufferSize : Nat
deriving DecidableEq, Repr

/-- `DefaultConfig()`: Go-style comments, 64 KiB buffer. -/
def DefaultConfig : Config := ⟨GoStyle, 64 * 1024⟩

/-- `Config.maxCommentSize`: `len(prefix) + len("FileIntegrity: ") + 8 + len(suffix) + 2`. -/
def maxCommentSize (c : Config) : Nat :=
  c.style.pre.length + keyBytes.length + 8 + c.style.suf.length + 2

/-- The sliding-window size used by both streaming passes: `maxCommentSize + 2`. -/
def windowSize (c : Config) : Nat := maxCommentSize c + 2

/-! ## CRC-32 (IEEE), the algorithm of Go `hash/crc32.NewIEEE`

The table-driven Go implementation is equivalent to the standard bitwise
formulation with the reflected polynomial `0xEDB88320`: xor the byte into the
low bits of the state, then eight conditional shift-xor steps per byte;
the running state starts at `0xFFFFFFFF` and `Sum32` xors it with
`0xFFFFFFFF` again. -/

/-- One shift step of the reflected CRC-32 polynomial. -/
def crcStep (c : Nat) : Nat := if c % 2 = 1 then Nat.xor (c / 2) 0xEDB88320 else c / 2

/-- Fold one byte into the CRC state. -/
def crcByte (c b : Nat) : Nat := crcStep^[8] (Nat.xor c (b % 256))

/-- Initial CRC-32 state. -/
def crcInit : Nat := 0xFFFFFFFF

/-- Fold a byte list into a CRC state (models successive `hasher.Write` calls). -/
def crcUpd (c : Nat) (bs : List Nat) : Nat := bs.foldl crcByte c

/-- `Sum32`: final xor. -/
def crcFinal (c : Nat) : Nat := Nat.xor c 0xFFFFFFFF

/-- CRC-32/IEEE of a byte list. -/
def crc32 (bs : List Nat) : Nat := crcFinal (crcUpd crcInit bs)

/-! ## Hex rendering and parsing -/

/-- Uppercase hex digit byte of a value below 16 (as in Go `%X` formatting). -/
def hexDigit (n : Nat) : Nat := if n < 10 then 48 + n else 55 + n

/-- Go `fmt.Sprintf("%08X", crc)`: eight uppercase hex digit bytes of a `uint32`. -/
def hex8 (n : Nat) : List Nat :=
  let m := n % 4294967296
  [hexDigit (m / 16 ^ 7 % 16), hexDigit (m / 16 ^ 6 % 16), hexDigit (m / 16 ^ 5 % 16),
   hexDigit (m / 16 ^ 4 % 16), hexDigit (m / 16 ^ 3 % 16), hexDigit (m / 16 ^ 2 % 16),
   hexDigit (m / 16 % 16), hexDigit (m % 16)]

/-- Value of one hex digit byte (Go `encoding/hex` accepts both cases). -/
def hexVal (b : Nat) : Option Nat :=
  if 48 ≤ b ∧ b ≤ 57 then some (b - 48)
  else if 65 ≤ b ∧ b ≤ 70 then some (b - 55)
  else if 97 ≤ b ∧ b ≤ 102 then some (b - 87)
  else none

/-- Models `hex.DecodeString` on the captured marker payload followed by the
big-endian assembly `crcBytes[0]<<24 | ... | crcBytes[3]` (source lines 262-267
and 431-437): succeeds exactly when the input is eight hex digit bytes, and
then yields their value as a number. -/
def decodeHexAcc : Nat → List Nat → Option Nat
  | a, [] => some a
  | a, b :: rest =>
    match hexVal b with
    | some v => decodeHexAcc (a * 16 + v) rest
    | none => none

def decodeHex8 (l : List Nat) : Option Nat :=
  if l.length = 8 then decodeHexAcc 0 l else none

/-! ## The marker matcher

`createCommentPattern` builds the Go regexp
`(?m)^<prefix>FileIntegrity: ([0-9A-F]{8})<suffix>\r?\n?$`
and the code calls `FindSubmatchIndex`, which returns the leftmost match.
In multiline mode `^` matches at the start of the window or right after a
`\n` byte, and `$` matches at the end of the window or right before a `\n`
byte.  A match at position `p` therefore consists of the literal prefix, the
key, exactly eight uppercase hex digits, the literal suffix, and then a line
end: either the position right after the suffix satisfies `$`, or a `\r`
(optionally followed by the `\n` that `$` needs) is consumed first.  The
match data used by the code is the match start (`match[0]`) and the capture
bounds (`match[2]`, `match[3]`), which sit at fixed offsets from the start. -/

/-- The bytes of `pat` occur in `w` starting at position `p`. -/
def sliceEq (w : List Nat) (p : Nat) (pat : List Nat) : Bool :=
  (w.drop p).take pat.length == pat

/-- Uppercase hex digit byte, the character class `[0-9A-F]`. -/
def isUpHex (b : Nat) : Bool := (48 ≤ b && b ≤ 57) || (65 ≤ b && b ≤ 70)

/-- Length of the fixed-width part of the marker: prefix, key, digits, suffix. -/
def coreLen (st : CommentStyle) : Nat := st.pre.length + keyBytes.length + 8 + st.suf.length

/-- The fixed-width part of the marker matches at `p`: prefix bytes, key
bytes, eight uppercase hex digit bytes, suffix bytes. -/
def coreMatchAt (st : CommentStyle) (w : List Nat) (p : Nat) : Bool :=
  sliceEq w p st.pre &&
  sliceEq w (p + st.pre.length) keyBytes &&
  (let hx := (w.drop (p + st.pre.length + keyBytes.length)).take 8
   hx.length == 8 && hx.all isUpHex) &&
  sliceEq w (p + st.pre.length + keyBytes.length + 8) st.suf

/-- `\r?\n?$` can be satisfied starting at position `q`: the window ends
there, or a `\n` follows (matched by `$` or consumed), or a `\r` followed by
the window end or a `\n`. -/
def tailOk (w : List Nat) (q : Nat) : Bool :=
  let t := w.drop q
  t.isEmpty || t.head? == some 10 ||
    (t.head? == some 13 && (t.tail.isEmpty || t.tail.head? == some 10))

/-- A whole-pattern match starts at `p`, ignoring the `^` anchor. -/
def rawMatchAt (st : CommentStyle) (w : List Nat) (p : Nat) : Bool :=
  coreMatchAt st w p && tailOk w (p + coreLen st)

/-- `^` in multiline mode: start of the window or right after a `\n`. -/
def lineStartAt (w : List Nat) (p : Nat) : Bool :=
  p == 0 || (w.drop (p - 1)).head? == some 10

/-- An anchored marker match starts at `p`. -/
def markerAt (st : CommentStyle) (w : List Nat) (p : Nat) : Bool :=
  lineStartAt w p && rawMatchAt st w p

/-- The regexp engine's scan: the least position in `[start, start+fuel)`
satisfying `f`. -/
def scanFirst (f : Nat → Bool) : Nat → Nat → Option Nat
  | 0, _ => none
  | fuel + 1, start => if f start then some start else scanFirst f fuel (start + 1)

/-- Models `pattern.FindSubmatchIndex(window)`: the start of the leftmost
anchored marker match, if any. -/
def findMarker (st : CommentStyle) (w : List Nat) : Option Nat :=
  scanFirst (markerAt st w) (w.length + 1) 0

/-- The eight captured hex digit bytes of a match starting at `p`
(`window[match[2]:match[3]]`). -/
def hexSlice (st : CommentStyle) (w : List Nat) (p : Nat) : List Nat :=
  (w.drop (p + st.pre.length + keyBytes.length)).take 8

/-! ## Line-ending detection and marker rendering -/

/-- Helper for `detectLineEnding`: walk the bytes carrying the previous one. -/
def detectLEAux : Option Nat → List Nat → List Nat
  | _, [] => [10]
  | prev, b :: rest =>
    if b = 10 then (if prev = some 13 then [13, 10] else [10])
    else detectLEAux (some b) rest

/-- `detectLineEnding` (source lines 469-481): find the first `\n`; CRLF if a
`\r` directly precedes it, else LF; LF when the window has no `\n` at all. -/
def detectLineEnding (w : List Nat) : List Nat := detectLEAux none w

/-- `createComment` (source lines 333-340):
`prefix + "FileIntegrity: " + %08X + suffix + lineEnding`. -/
def createComment (st : CommentStyle) (crc : Nat) (le : List Nat) : List Nat :=
  st.pre ++ keyBytes ++ hex8 crc ++ st.suf ++ le

/-! ## Final-window processing (`finalizeWindow`, source lines 248-330)

Each Go local becomes a definition: `cpOf` is `contentPart`, `existOf` the
pair (`hasExistingComment`, `existingCRC`), `hsAfter` the hasher state after
the content write, `calcOf` is `calculatedCRC`, `needsNLOf` is
`needsNewline`, `leOf` is `lineEnding`. -/

/-- `contentPart`: the window bytes before the matched marker, or the whole
window when no marker is found. -/
def cpOf (cfg : Config) (w : List Nat) : List Nat :=
  match findMarker cfg.style w with
  | some p => w.take p
  | none => w

/-- `existingCRC` guarded by `hasExistingComment`: the decoded payload of the
matched marker, when a marker was matched and its payload decodes to four
bytes. -/
def existOf (cfg : Config) (w : List Nat) : Option Nat :=
  match findMarker cfg.style w with
  | some p => decodeHex8 (hexSlice cfg.style w p)
  | none => none

/-- Hasher state after the content write of `finalizeWindow` (lines 280-296):
contentPart with one trailing line ending excluded, where a final CRLF counts
as one line ending. -/
def hsAfter (cfg : Config) (hs : Nat) (w : List Nat) : Nat :=
  let cp := cpOf cfg w
  if 0 < cp.length then
    if cp.getLast? = some 10 then
      if 1 < cp.length ∧ cp.get? (cp.length - 2) = some 13 then
        crcUpd hs (cp.take (cp.length - 2))
      else crcUpd hs (cp.take (cp.length - 1))
    else crcUpd hs cp
  else hs

/-- `calculatedCRC`. -/
def calcOf (cfg : Config) (hs : Nat) (w : List Nat) : Nat := crcFinal (hsAfter cfg hs w)

/-- `needsNewline`: set only in the branch for non-empty content without a
trailing `\n`. -/
def needsNLOf (cfg : Config) (w : List Nat) : Bool :=
  let cp := cpOf cfg w
  decide (0 < cp.length) && !(cp.getLast? == some 10)

/-- `lineEnding`, detected from the window. -/
def leOf (w : List Nat) : List Nat := detectLineEnding w

/-- `finalizeWindow`: returns the bytes written for the window and the no-op
flag.  No-op exactly when a marker with a decodable payload was found and its
value equals the calculated CRC; then the window is written back verbatim.
Otherwise contentPart, an inserted line ending when `needsNewline`, and a
fresh marker are written. -/
def finalizeWindow (cfg : Config) (hs : Nat) (w : List Nat) : List Nat × Bool :=
  if existOf cfg w = some (calcOf cfg hs w) then (w, true)
  else
    (cpOf cfg w ++ (if needsNLOf cfg w then leOf w else []) ++
      createComment cfg.style (calcOf cfg hs w) (leOf w), false)

/-- `verifyWindow` (source lines 422-456), with the Reader's own inline
stripping of the trailing line ending before hashing. -/
def verifyWindow (cfg : Config) (hs : Nat) (w : List Nat) : Except String Bool :=
  match findMarker cfg.style w with
  | none => Except.error "no integrity comment found"
  | some p =>
    match decodeHex8 (hexSlice cfg.style w p) with
    | none => Except.error "invalid CRC format"
    | some stored =>
      let cp0 := w.take p
      let hs2 :=
        if 0 < cp0.length then
          if cp0.getLast? = some 10 then
            if 1 < cp0.length ∧ cp0.get? (cp0.length - 2) = some 13 then
              crcUpd hs (cp0.take (cp0.length - 2))
            else crcUpd hs (cp0.take (cp0.length - 1))
          else crcUpd hs cp0
        else hs
      Except.ok (crcFinal hs2 == stored)

/-- The rule both passes implement on the final content: drop one trailing
line ending if present, a final CRLF counting as one. -/
def stripLE (l : List Nat) : List Nat :=
  if l.getLast? = some 10 then
    if 1 < l.length ∧ l.get? (l.length - 2) = some 13 then l.take (l.length - 2)
    else l.take (l.length - 1)
  else l

deriving instance DecidableEq for Except

/-! ## The sliding-window streaming loop (source lines 168-232 and 368-419)

`processStream` and `verifyStream` contain the same loop, line for line; the
only difference is that the Writer also copies every checksummed byte to the
destination.  `streamLoop` is that shared loop; the Reader ignores the `out`
component.  One `Read` call pops one chunk; `io.EOF` is reported on the call
that exhausts the chunk list. -/

/-- One `src.Read` call on the chunk-list reader. -/
def readChunk : List (List Nat) → List Nat × List (List Nat) × Bool
  | [] => ([], [], true)
  | c :: rest => (c, rest, rest.isEmpty)

/-- The per-iteration slide: on the first iteration, checksum and emit all
but the last `windowSize` bytes when the buffer holds more than that; on
later iterations, do the same unconditionally, which in Go panics when fewer
than `windowSize` bytes are buffered (`buffer[:n-windowSize]` with a negative
bound) — modelled as `none`. -/
def slideStep (cfg : Config) (first : Bool) (hs : Nat) (out buf : List Nat) :
    Option (Nat × List Nat × List Nat) :=
  if first then
    if windowSize cfg < buf.length then
      some (crcUpd hs (buf.take (buf.length - windowSize cfg)),
        out ++ buf.take (buf.length - windowSize cfg),
        buf.drop (buf.length - windowSize cfg))
    else some (hs, out, buf)
  else if buf.length < windowSize cfg then none
  else
    some (crcUpd hs (buf.take (buf.length - windowSize cfg)),
      out ++ buf.take (buf.length - windowSize cfg),
      buf.drop (buf.length - windowSize cfg))

/-- The `for !eof` loop: slide, then read into the free buffer space after
the retained bytes.  A chunk larger than the free space cannot come from a
Go `Read` into `buffer[n:]` and is modelled as `none`. -/
def streamLoop (cfg : Config) :
    Bool → Nat → List Nat → List Nat → List (List Nat) → Bool →
    Option (Nat × List Nat × List Nat)
  | _, hs, out, buf, _, true => some (hs, out, buf)
  | first, hs, out, buf, cs, false =>
    match slideStep cfg first hs out buf with
    | none => none
    | some (hs1, out1, buf1) =>
      match cs with
      | [] => some (hs1, out1, buf1)
      | c :: rest =>
        if cfg.bufferSize - buf1.length < c.length then none
        else streamLoop cfg false hs1 out1 (buf1 ++ c) rest rest.isEmpty

/-- `processStream` on a chunk-list source: the bytes written to the
destination and the no-op flag, or `none` for a faulting run.  A first read
of zero bytes takes the `finalizeEmpty` path (source lines 182-188, 235-244):
one marker over the empty checksum, never a no-op. -/
def processStreamChunks (cfg : Config) (cs : List (List Nat)) : Option (List Nat × Bool) :=
  match readChunk cs with
  | (c, cs1, eof) =>
    if cfg.bufferSize < c.length then none
    else if c.length = 0 then some (createComment cfg.style (crcFinal crcInit) [10], false)
    else
      match streamLoop cfg true crcInit [] c cs1 eof with
      | none => none
      | some (hs, out, win) =>
        some (out ++ (finalizeWindow cfg hs win).1, (finalizeWindow cfg hs win).2)

/-- `verifyStream` on a chunk-list source: `none` for a faulting run, and
otherwise the Go `(bool, error)` pair as an `Except`. -/
def verifyStreamChunks (cfg : Config) (cs : List (List Nat)) : Option (Except String Bool) :=
  match readChunk cs with
  | (c, cs1, eof) =>
    if cfg.bufferSize < c.length then none
    else if c.length = 0 then some (Except.error "empty file")
    else
      match streamLoop cfg true crcInit [] c cs1 eof with
      | none => none
      | some (hs, _, win) => some (verifyWindow cfg hs win)

/-! ## The in-memory reference

The whole content is split into the part before the final window — which the
loop checksums and (for the Writer) copies — and the final window of
`min length windowSize` bytes handed to `finalizeWindow`/`verifyWindow`. -/

/-- The bytes the loop checksums and emits before the final window. -/
def refPre (w : Nat) (bs : List Nat) : List Nat := bs.take (bs.length - min bs.length w)

/-- The final window: the last `min length w` bytes. -/
def refWin (w : Nat) (bs : List Nat) : List Nat := bs.drop (bs.length - min bs.length w)

/-- Reference Writer pass over in-memory content. -/
def processRef (cfg : Config) (content : List Nat) : List Nat × Bool :=
  if content.length = 0 then (createComment cfg.style (crcFinal crcInit) [10], false)
  else
    (refPre (windowSize cfg) content ++
      (finalizeWindow cfg (crcUpd crcInit (refPre (windowSize cfg) content))
        (refWin (windowSize cfg) content)).1,
     (finalizeWindow cfg (crcUpd crcInit (refPre (windowSize cfg) content))
        (refWin (windowSize cfg) content)).2)

/-- Reference Reader pass over in-memory content. -/
def verifyRef (cfg : Config) (content : List Nat) : Except String Bool :=
  if content.length = 0 then Except.error "empty file"
  else
    verifyWindow cfg (crcUpd crcInit (refPre (windowSize cfg) content))
      (refWin (windowSize cfg) content)

/-- The delivery discipline of an `os.File`-backed reader: every read before
end-of-stream returns at least one byte, and end-of-stream is reported by a
final zero-byte read. -/
def goodDeliveryB (cs : List (List Nat)) : Bool :=
  cs.isEmpty || (cs.getLast? == some ([] : List Nat) && cs.dropLast.all (fun c => !c.isEmpty))

/-- No whole-pattern marker match occurs anywhere in the content (at any
offset, anchored or not). -/
def rawMarkerFree (st : CommentStyle) (c : List Nat) : Bool :=
  (List.range (c.length + 1)).all (fun p => !rawMatchAt st c p)

/-! ## `ProcessFile`'s filesystem effect (source lines 104-164)

`ProcessFile` stats the target, opens it, creates a temp file in the same
directory, streams source to temp, and then: on engine error removes the
temp file; on no-op removes the temp file and returns without touching the
target; otherwise applies the captured permissions (and, best effort, the
ownership) to the temp file and renames it over the target, which gives the
target the new bytes and a fresh modification time. -/

/-- The target file's metadata captured by `os.Stat`. -/
structure FileMeta where
  mode : Nat
  uid : Nat
  gid : Nat
  mtime : Nat
deriving DecidableEq, Repr

/-- A target file: bytes plus metadata. -/
structure TargetFile where
  data : List Nat
  meta : FileMeta
deriving DecidableEq, Repr

/-- `ProcessFile`'s effect on the target, given the delivery of its bytes:
`(final target, a temp file remains, success)`. -/
def processFileFS (cfg : Config) (tgt : TargetFile) (cs : List (List Nat)) (now : Nat) :
    TargetFile × Bool × Bool :=
  match processStreamChunks cfg cs with
  | none => (tgt, false, false)
  | some (_, true) => (tgt, false, true)
  | some (out, false) =>
    (⟨out, ⟨tgt.meta.mode, tgt.meta.uid, tgt.meta.gid, now⟩⟩, false, true)

/-! ## Basic facts: CRC, hex digits, styles -/

/-- Comment text containing neither LF nor CR; true of every predefined
style. -/
def styleOk (st : CommentStyle) : Bool :=
  (st.pre ++ st.suf).all fun b => decide (b ≠ 10 ∧ b ≠ 13)

theorem styleOk_predefined : ∀ st ∈ predefinedStyles, styleOk st = true := by decide

theorem crcUpd_append (h : Nat) (a b : List Nat) :
    crcUpd h (a ++ b) = crcUpd (crcUpd h a) b := List.foldl_append ..

theorem crcUpd_nil (h : Nat) : crcUpd h [] = h := rfl

theorem crcStep_lt {c : Nat} (h : c < 4294967296) : crcStep c < 4294967296 := by
  have h2 : (4294967296 : Nat) = 2 ^ 32 := by norm_num
  unfold crcStep
  split
  · exact h2 ▸ Nat.xor_lt_two_pow (by omega) (by norm_num)
  · omega

theorem crcIter_lt {c : Nat} (n : Nat) (h : c < 4294967296) : crcStep^[n] c < 4294967296 := by
  induction n generalizing c with
  | zero => simpa
  | succ n ih => rw [Function.iterate_succ_apply]; exact ih (crcStep_lt h)

theorem crcByte_lt {c : Nat} (b : Nat) (h : c < 4294967296) : crcByte c b < 4294967296 := by
  have h2 : (4294967296 : Nat) = 2 ^ 32 := by norm_num
  have hx : Nat.xor c (b % 256) < 4294967296 :=
    h2 ▸ Nat.xor_lt_two_pow (h2 ▸ h) (by have := Nat.mod_lt b (y := 256) (by norm_num); omega)
  exact crcIter_lt 8 hx

theorem crcUpd_lt {c : Nat} (bs : List Nat) (h : c < 4294967296) :
    crcUpd c bs < 4294967296 := by
  induction bs generalizing c with
  | nil => simpa [crcUpd]
  | cons b rest ih => exact ih (crcByte_lt b h)

theorem crcFinal_lt {c : Nat} (h : c < 4294967296) : crcFinal c < 4294967296 := by
  have h2 : (4294967296 : Nat) = 2 ^ 32 := by norm_num
  exact h2 ▸ Nat.xor_lt_two_pow (h2 ▸ h) (by norm_num)

theorem hsAfter_lt {hs : Nat} (cfg : Config) (w : List Nat) (h : hs < 4294967296) :
    hsAfter cfg hs w < 4294967296 := by
  unfold hsAfter
  simp only
  split
  · split
    · split
      · exact crcUpd_lt _ h
      · exact crcUpd_lt _ h
    · exact crcUpd_lt _ h
  · exact h

theorem calcOf_lt {hs : Nat} (cfg : Config) (w : List Nat) (h : hs < 4294967296) :
    calcOf cfg hs w < 4294967296 :=
  crcFinal_lt (hsAfter_lt cfg w h)

theorem hexVal_hexDigit {v : Nat} (h : v < 16) : hexVal (hexDigit v) = some v := by
  rcases Nat.lt_or_ge v 10 with hv | hv
  · have hd : hexDigit v = 48 + v := by unfold hexDigit; rw [if_pos hv]
    rw [hd]
    unfold hexVal
    rw [if_pos (by omega)]
    congr 1
    omega
  · have hd : hexDigit v = 55 + v := by unfold hexDigit; rw [if_neg (by omega)]
    rw [hd]
    unfold hexVal
    rw [if_neg (by omega), if_pos (by omega)]
    congr 1
    omega

theorem isUpHex_hexDigit {v : Nat} (h : v < 16) : isUpHex (hexDigit v) = true := by
  rcases Nat.lt_or_ge v 10 with hv | hv
  · have hd : hexDigit v = 48 + v := by unfold hexDigit; rw [if_pos hv]
    rw [hd]
    unfold isUpHex
    simp only [Bool.or_eq_true, Bool.and_eq_true, decide_eq_true_eq]
    omega
  · have hd : hexDigit v = 55 + v := by unfold hexDigit; rw [if_neg (by omega)]
    rw [hd]
    unfold isUpHex
    simp only [Bool.or_eq_true, Bool.and_eq_true, decide_eq_true_eq]
    omega

theorem hexDigit_ge {v : Nat} : 48 ≤ hexDigit v := by unfold hexDigit; split <;> omega

theorem hex8_length (n : Nat) : (hex8 n).length = 8 := rfl

theorem hex8_all_isUpHex (n : Nat) : (hex8 n).all isUpHex = true := by
  have h16 : ∀ m : Nat, m % 16 < 16 := fun m => Nat.mod_lt _ (by norm_num)
  simp only [hex8, List.all_cons, List.all_nil, Bool.and_eq_true]
  refine ⟨?_, ?_, ?_, ?_, ?_, ?_, ?_, ?_, trivial⟩ <;> exact isUpHex_hexDigit (h16 _)

theorem hex8_no_crlf (n : Nat) : ∀ b ∈ hex8 n, b ≠ 10 ∧ b ≠ 13 := by
  intro b hb
  have : 48 ≤ b := by
    simp only [hex8, List.mem_cons, List.not_mem_nil, or_false] at hb
    rcases hb with h | h | h | h | h | h | h | h <;> exact h ▸ hexDigit_ge
  omega

theorem decodeHexAcc_digit (a m : Nat) (rest : List Nat) :
    decodeHexAcc a (hexDigit (m % 16) :: rest) = decodeHexAcc (a * 16 + m % 16) rest := by
  conv_lhs => rw [decodeHexAcc]
  rw [hexVal_hexDigit (Nat.mod_lt _ (by norm_num))]

theorem decodeHex8_hex8 (n : Nat) : decodeHex8 (hex8 n) = some (n % 4294967296) := by
  unfold decodeHex8
  rw [if_pos (hex8_length n)]
  show decodeHexAcc 0 (hex8 n) = _
  unfold hex8
  simp only
  rw [decodeHexAcc_digit, decodeHexAcc_digit, decodeHexAcc_digit, decodeHexAcc_digit,
    decodeHexAcc_digit, decodeHexAcc_digit, decodeHexAcc_digit, decodeHexAcc_digit]
  unfold decodeHexAcc
  congr 1
  have h : n % 4294967296 < 4294967296 := Nat.mod_lt _ (by norm_num)
  generalize n % 4294967296 = m at h ⊢
  norm_num
  omega

/-! ## Matcher lemmas: the scan is a leftmost search, and matches transfer
between a window and the content it is cut from -/

theorem scanFirst_some {f : Nat → Bool} : ∀ {fuel start p : Nat},
    scanFirst f fuel start = some p →
    f p = true ∧ start ≤ p ∧ p < start + fuel ∧ ∀ q, start ≤ q → q < p → f q = false := by
  intro fuel
  induction fuel with
  | zero => intro start p h; simp [scanFirst] at h
  | succ n ih =>
    intro start p h
    rw [scanFirst] at h
    by_cases hf : f start = true
    · rw [if_pos hf] at h
      cases h
      exact ⟨hf, le_refl _, by omega, fun q h1 h2 => absurd (lt_of_le_of_lt h1 h2) (lt_irrefl _)⟩
    · rw [if_neg hf] at h
      obtain ⟨a, b, c, d⟩ := ih h
      refine ⟨a, by omega, by omega, fun q h1 h2 => ?_⟩
      rcases Nat.eq_or_lt_of_le h1 with h1 | h1
      · rw [← h1]
        exact Bool.not_eq_true _ ▸ eq_false_of_ne_true hf
      · exact d q h1 h2

theorem scanFirst_intro {f : Nat → Bool} : ∀ {fuel start p : Nat},
    start ≤ p → p < start + fuel → f p = true → (∀ q, start ≤ q → q < p → f q = false) →
    scanFirst f fuel start = some p := by
  intro fuel
  induction fuel with
  | zero => intro start p h1 h2; omega
  | succ n ih =>
    intro start p h1 h2 h3 h4
    rw [scanFirst]
    rcases Nat.eq_or_lt_of_le h1 with h1 | h1
    · rw [← h1] at h3 ⊢
      rw [if_pos h3]
    · rw [if_neg (by rw [h4 start (le_refl _) h1]; simp)]
      exact ih h1 (by omega) h3 (fun q hq1 hq2 => h4 q (by omega) hq2)

theorem scanFirst_none {f : Nat → Bool} : ∀ {fuel start : Nat},
    (∀ q, start ≤ q → q < start + fuel → f q = false) → scanFirst f fuel start = none := by
  intro fuel
  induction fuel with
  | zero => intro start _; rfl
  | succ n ih =>
    intro start h
    rw [scanFirst, if_neg (by rw [h start (le_refl _) (by omega)]; simp)]
    exact ih fun q h1 h2 => h q (by omega) (by omega)

theorem sliceEq_true_le {w pat : List Nat} {p : Nat} (h : sliceEq w p pat = true) :
    pat.length ≤ w.length - p := by
  unfold sliceEq at h
  rw [beq_iff_eq] at h
  have hl := congrArg List.length h
  simp only [List.length_take, List.length_drop] at hl
  omega

theorem keyBytes_length : keyBytes.length = 15 := rfl

theorem coreMatchAt_le {st : CommentStyle} {w : List Nat} {p : Nat}
    (h : coreMatchAt st w p = true) : p + coreLen st ≤ w.length := by
  unfold coreMatchAt at h
  simp only [Bool.and_eq_true] at h
  obtain ⟨⟨⟨_, _⟩, h3⟩, h4⟩ := h
  simp only [Bool.and_eq_true, beq_iff_eq] at h3
  have h3a := h3.1
  rw [List.length_take, List.length_drop] at h3a
  have hs := sliceEq_true_le h4
  unfold coreLen
  omega

theorem markerAt_oob {st : CommentStyle} {w : List Nat} {p : Nat} (h : w.length < p) :
    markerAt st w p = false := by
  by_contra hm
  have hm : markerAt st w p = true := by
    cases hmm : markerAt st w p
    · exact absurd hmm hm
    · rfl
  unfold markerAt rawMatchAt at hm
  simp only [Bool.and_eq_true] at hm
  have := coreMatchAt_le hm.2.1
  omega

theorem findMarker_some {st : CommentStyle} {w : List Nat} {p : Nat}
    (h : findMarker st w = some p) :
    markerAt st w p = true ∧ p ≤ w.length ∧ ∀ q, q < p → markerAt st w q = false := by
  obtain ⟨a, _, c, d⟩ := scanFirst_some h
  exact ⟨a, by omega, fun q hq => d q (Nat.zero_le q) hq⟩

theorem findMarker_intro {st : CommentStyle} {w : List Nat} {p : Nat}
    (hm : markerAt st w p = true) (hmin : ∀ q, q < p → markerAt st w q = false) :
    findMarker st w = some p := by
  have hp : p ≤ w.length := by
    by_contra hc
    rw [markerAt_oob (by omega)] at hm
    cases hm
  exact scanFirst_intro (Nat.zero_le p) (by omega) hm fun q _ hq => hmin q hq

theorem findMarker_none {st : CommentStyle} {w : List Nat}
    (h : ∀ q, markerAt st w q = false) : findMarker st w = none :=
  scanFirst_none fun q _ _ => h q

theorem sliceEq_shift (l : List Nat) (k p : Nat) (pat : List Nat) :
    sliceEq (l.drop k) p pat = sliceEq l (k + p) pat := by
  unfold sliceEq
  rw [List.drop_drop]

theorem tailOk_shift (l : List Nat) (k q : Nat) : tailOk (l.drop k) q = tailOk l (k + q) := by
  unfold tailOk
  simp only [List.drop_drop, List.tail_drop]

theorem coreMatchAt_shift (st : CommentStyle) (l : List Nat) (k p : Nat) :
    coreMatchAt st (l.drop k) p = coreMatchAt st l (k + p) := by
  unfold coreMatchAt
  simp only [sliceEq_shift, List.drop_drop, Nat.add_assoc]

theorem rawMatchAt_shift (st : CommentStyle) (l : List Nat) (k p : Nat) :
    rawMatchAt st (l.drop k) p = rawMatchAt st l (k + p) := by
  unfold rawMatchAt
  rw [coreMatchAt_shift, tailOk_shift, Nat.add_assoc]

theorem coreLen_pos (st : CommentStyle) : 0 < coreLen st := by
  unfold coreLen
  omega

theorem rawMarkerFree_all {st : CommentStyle} {c : List Nat} (h : rawMarkerFree st c = true) :
    ∀ p, rawMatchAt st c p = false := by
  intro p
  rcases Nat.lt_or_ge p (c.length + 1) with hp | hp
  · have h2 := (List.all_eq_true.mp h) p (List.mem_range.mpr hp)
    simpa using h2
  · cases hx : rawMatchAt st c p
    · rfl
    · exfalso
      unfold rawMatchAt at hx
      simp only [Bool.and_eq_true] at hx
      have := coreMatchAt_le hx.1
      omega

theorem dropTake_append {a b : List Nat} {p n : Nat} (h : p + n ≤ a.length) :
    ((a ++ b).drop p).take n = (a.drop p).take n := by
  rw [List.drop_append_of_le_length (by omega),
    List.take_append_of_le_length (by rw [List.length_drop]; omega)]

theorem sliceEq_append_eq {a b pat : List Nat} {p : Nat} (h : p + pat.length ≤ a.length) :
    sliceEq (a ++ b) p pat = sliceEq a p pat := by
  unfold sliceEq
  rw [dropTake_append h]

theorem coreMatchAt_append_eq {st : CommentStyle} {a b : List Nat} {p : Nat}
    (h : p + coreLen st ≤ a.length) : coreMatchAt st (a ++ b) p = coreMatchAt st a p := by
  have hcl : coreLen st = st.pre.length + keyBytes.length + 8 + st.suf.length := rfl
  unfold coreMatchAt
  rw [sliceEq_append_eq (by omega), sliceEq_append_eq (by omega), sliceEq_append_eq (by omega),
    dropTake_append (by omega)]

theorem tailOk_append_elim {a b : List Nat} {e : Nat} (he : e ≤ a.length)
    (h : tailOk (a ++ b) e = true) : tailOk a e = true := by
  rcases Nat.eq_or_lt_of_le he with he1 | hlt
  · unfold tailOk
    rw [he1, List.drop_length]
    simp
  · unfold tailOk at h ⊢
    rw [List.drop_append_of_le_length (le_of_lt hlt)] at h
    obtain ⟨x, rest, hx⟩ : ∃ x rest, a.drop e = x :: rest := by
      cases hd : a.drop e with
      | nil =>
        rw [List.drop_eq_nil_iff] at hd
        omega
      | cons x rest => exact ⟨x, rest, rfl⟩
    rw [hx] at h ⊢
    simp only [List.cons_append, List.isEmpty_cons, List.head?_cons, List.tail_cons,
      Bool.false_or, Bool.or_eq_true, Bool.and_eq_true, beq_iff_eq] at h ⊢
    rcases h with h | ⟨h13, h2⟩
    · exact Or.inl h
    · refine Or.inr ⟨h13, ?_⟩
      cases rest with
      | nil => simp
      | cons y t =>
        simp only [List.cons_append, List.isEmpty_cons, List.head?_cons, Bool.false_or,
          Bool.or_eq_true, beq_iff_eq] at h2 ⊢
        rcases h2 with h2 | h2
        · cases h2
        · simp [h2]

theorem keyBytes_no_crlf : ∀ b ∈ keyBytes, b ≠ 10 ∧ b ≠ 13 := by decide

theorem sliceEq_get {w pat : List Nat} {p d : Nat} (h : sliceEq w p pat = true)
    (hd : d < pat.length) : w[p + d]? = pat[d]? := by
  unfold sliceEq at h
  rw [beq_iff_eq] at h
  have h2 : ((w.drop p).take pat.length)[d]? = pat[d]? := by rw [h]
  rw [List.getElem?_take, if_pos hd, List.getElem?_drop] at h2
  exact h2

theorem coreMatch_no_crlf {st : CommentStyle} {w : List Nat} {p : Nat}
    (hst : styleOk st = true) (h : coreMatchAt st w p = true) :
    ∀ j v, p ≤ j → j < p + coreLen st → w[j]? = some v → v ≠ 10 ∧ v ≠ 13 := by
  intro j v hj1 hj2 hv
  have hcl : coreLen st = st.pre.length + keyBytes.length + 8 + st.suf.length := rfl
  unfold coreMatchAt at h
  simp only [Bool.and_eq_true] at h
  obtain ⟨⟨⟨h1, h2⟩, h3⟩, h4⟩ := h
  simp only [Bool.and_eq_true, beq_iff_eq] at h3
  have hstyle : ∀ b ∈ st.pre ++ st.suf, b ≠ 10 ∧ b ≠ 13 := by
    intro b hb
    have := List.all_eq_true.mp hst b hb
    simpa using this
  rcases Nat.lt_or_ge j (p + st.pre.length) with hr | hr
  · have hg := sliceEq_get h1 (show j - p < st.pre.length by omega)
    rw [show p + (j - p) = j by omega, hv] at hg
    exact hstyle v (List.mem_append_left _ (List.getElem?_mem hg.symm))
  rcases Nat.lt_or_ge j (p + st.pre.length + keyBytes.length) with hr2 | hr2
  · have hg := sliceEq_get h2 (show j - (p + st.pre.length) < keyBytes.length by omega)
    rw [show p + st.pre.length + (j - (p + st.pre.length)) = j by omega, hv] at hg
    exact keyBytes_no_crlf v (List.getElem?_mem hg.symm)
  rcases Nat.lt_or_ge j (p + st.pre.length + keyBytes.length + 8) with hr3 | hr3
  · have hhx := h3.2
    have hidx : ((w.drop (p + st.pre.length + keyBytes.length)).take 8)[j -
        (p + st.pre.length + keyBytes.length)]? = w[j]? := by
      rw [List.getElem?_take, if_pos (by omega), List.getElem?_drop,
        show p + st.pre.length + keyBytes.length +
          (j - (p + st.pre.length + keyBytes.length)) = j by omega]
    rw [hv] at hidx
    have hm := List.all_eq_true.mp hhx v (List.getElem?_mem hidx)
    unfold isUpHex at hm
    simp only [Bool.or_eq_true, Bool.and_eq_true, decide_eq_true_eq] at hm
    omega
  · have hg := sliceEq_get h4
      (show j - (p + st.pre.length + keyBytes.length + 8) < st.suf.length by omega)
    rw [show p + st.pre.length + keyBytes.length + 8 +
      (j - (p + st.pre.length + keyBytes.length + 8)) = j by omega, hv] at hg
    exact hstyle v (List.mem_append_right _ (List.getElem?_mem hg.symm))

theorem sliceEq_of_drop {w pat rest : List Nat} {p : Nat} (h : w.drop p = pat ++ rest) :
    sliceEq w p pat = true := by
  unfold sliceEq
  rw [h, List.take_left, beq_self_eq_true]

theorem tailOk_of_le {w : List Nat} {q : Nat} {le : List Nat}
    (hle : le = [10] ∨ le = [13, 10]) (h : w.drop q = le) : tailOk w q = true := by
  unfold tailOk
  rcases hle with rfl | rfl <;> rw [h] <;> rfl

/-- A freshly rendered marker, appended after any bytes, is a whole-pattern
match at the append point. -/
theorem rawMatch_of_structure {st : CommentStyle} {w : List Nat} {p v : Nat} {le : List Nat}
    (hle : le = [10] ∨ le = [13, 10])
    (hdrop : w.drop p = st.pre ++ (keyBytes ++ (hex8 v ++ (st.suf ++ le)))) :
    rawMatchAt st w p = true := by
  have d1 : w.drop (p + st.pre.length) = keyBytes ++ (hex8 v ++ (st.suf ++ le)) := by
    rw [← List.drop_drop, hdrop, List.drop_left]
  have d2 : w.drop (p + st.pre.length + keyBytes.length) = hex8 v ++ (st.suf ++ le) := by
    rw [← List.drop_drop, d1, List.drop_left]
  have d3 : w.drop (p + st.pre.length + keyBytes.length + 8) = st.suf ++ le := by
    rw [← List.drop_drop, d2, ← hex8_length v, List.drop_left]
  have d4 : w.drop (p + coreLen st) = le := by
    rw [show p + coreLen st = p + st.pre.length + keyBytes.length + 8 + st.suf.length by
      unfold coreLen; omega, ← List.drop_drop, d3, List.drop_left]
  have hC : (w.drop (p + st.pre.length + keyBytes.length)).take 8 = hex8 v := by
    rw [d2, ← hex8_length v, List.take_left]
  unfold rawMatchAt coreMatchAt
  simp only [sliceEq_of_drop hdrop, sliceEq_of_drop d1, sliceEq_of_drop d3, hC,
    hex8_length, hex8_all_isUpHex, tailOk_of_le hle d4, Bool.and_true, Bool.true_and,
    beq_self_eq_true]

/-- In the writer's output `content ++ inserted-line-ending ++ marker`, no
whole-pattern match starts strictly before the marker, provided the content
is marker-free, the style text has no CR/LF bytes, and the part before the
marker ends in a newline. -/
theorem no_raw_match_before {st : CommentStyle} {c add mk : List Nat} {i : Nat}
    (hst : styleOk st = true)
    (hfree : rawMarkerFree st c = true)
    (hadd : add = [] ∨ add = [10] ∨ add = [13, 10])
    (hlast : (c ++ add).getLast? = some 10)
    (hi : i < (c ++ add).length) :
    rawMatchAt st ((c ++ add) ++ mk) i = false := by
  cases hraw : rawMatchAt st ((c ++ add) ++ mk) i
  · rfl
  exfalso
  unfold rawMatchAt at hraw
  simp only [Bool.and_eq_true] at hraw
  obtain ⟨hcore, htail⟩ := hraw
  have hDne : (c ++ add).length ≠ 0 := by
    intro h0
    rw [List.length_eq_zero.mp h0] at hlast
    cases hlast
  have hstep1 : i + coreLen st ≤ (c ++ add).length := by
    by_contra hgt
    have hidx : ((c ++ add) ++ mk)[(c ++ add).length - 1]? = some 10 := by
      rw [List.getElem?_append, if_pos (by omega), ← List.getLast?_eq_getElem?]
      exact hlast
    have := coreMatch_no_crlf hst hcore ((c ++ add).length - 1) 10 (by omega) (by omega) hidx
    exact this.1 rfl
  rcases Nat.lt_or_ge c.length (i + coreLen st) with hcr | hcr
  · -- the core would cross into the inserted line ending
    have haddne : add ≠ [] := by
      intro h0
      rw [h0, List.append_nil] at hstep1
      omega
    have haddlen : 0 < add.length := List.length_pos.mpr haddne
    have hjD : max i c.length < (c ++ add).length := by
      rw [List.length_append]
      rw [List.length_append] at hi
      exact max_lt (by omega) (by omega)
    have hjv : ∃ v, ((c ++ add) ++ mk)[max i c.length]? = some v ∧ (v = 10 ∨ v = 13) := by
      have h1 : ((c ++ add) ++ mk)[max i c.length]? = (c ++ add)[max i c.length]? := by
        rw [List.getElem?_append, if_pos hjD]
      have h2 : (c ++ add)[max i c.length]? = add[max i c.length - c.length]? := by
        rw [List.getElem?_append_right (le_max_right i c.length)]
      have hlt : max i c.length - c.length < add.length := by
        rw [List.length_append] at hjD
        omega
      rcases hadd with h0 | h0 | h0
      · exact absurd h0 haddne
      · refine ⟨10, ?_, Or.inl rfl⟩
        have hj0 : max i c.length - c.length = 0 := by rw [h0] at hlt; simp at hlt; omega
        rw [h1, h2, hj0, h0]
        rfl
      · rcases Nat.lt_or_ge (max i c.length - c.length) 1 with h01 | h01
        · refine ⟨13, ?_, Or.inr rfl⟩
          rw [h1, h2, show max i c.length - c.length = 0 by omega, h0]
          rfl
        · refine ⟨10, ?_, Or.inl rfl⟩
          have : max i c.length - c.length < 2 := by rw [h0] at hlt; simpa using hlt
          rw [h1, h2, show max i c.length - c.length = 1 by omega, h0]
          rfl
    obtain ⟨v, hv, hv2⟩ := hjv
    have hno := coreMatch_no_crlf hst hcore (max i c.length) v (le_max_left _ _)
      (max_lt (by have := coreLen_pos st; omega) hcr) hv
    rcases hv2 with rfl | rfl
    · exact hno.1 rfl
    · exact hno.2 rfl
  · -- the whole match lies inside the marker-free content
    have hcore2 : coreMatchAt st c i = true := by
      rw [List.append_assoc] at hcore
      rw [← coreMatchAt_append_eq (b := add ++ mk) hcr]
      exact hcore
    have htail2 : tailOk c (i + coreLen st) = true := by
      rw [List.append_assoc] at htail
      exact tailOk_append_elim hcr htail
    have hfa := rawMarkerFree_all hfree i
    unfold rawMatchAt at hfa
    rw [hcore2, htail2] at hfa
    cases hfa

/-- In any tail window of `content ++ inserted-line-ending ++ marker` that
starts at or before the marker, the leftmost anchored match is exactly the
real marker. -/
theorem findMarker_window {st : CommentStyle} {c add le : List Nat} {v k : Nat}
    (hst : styleOk st = true) (hfree : rawMarkerFree st c = true)
    (hadd : add = [] ∨ add = [10] ∨ add = [13, 10])
    (hle : le = [10] ∨ le = [13, 10])
    (hlast : (c ++ add).getLast? = some 10)
    (hk : k ≤ (c ++ add).length) :
    findMarker st (((c ++ add) ++ createComment st v le).drop k)
      = some ((c ++ add).length - k) := by
  have hDne : (c ++ add).length ≠ 0 := by
    intro h0
    rw [List.length_eq_zero.mp h0] at hlast
    cases hlast
  have hrawD : rawMatchAt st ((c ++ add) ++ createComment st v le) (c ++ add).length = true := by
    apply rawMatch_of_structure (v := v) hle
    rw [List.drop_left]
    simp [createComment, List.append_assoc]
  apply findMarker_intro
  · unfold markerAt
    rw [Bool.and_eq_true]
    refine ⟨?_, ?_⟩
    · unfold lineStartAt
      by_cases hm0 : (c ++ add).length - k = 0
      · rw [hm0]
        simp
      · rw [Bool.or_eq_true]
        right
        rw [List.drop_drop, List.head?_drop,
          show k + ((c ++ add).length - k - 1) = (c ++ add).length - 1 by omega, beq_iff_eq,
          List.getElem?_append, if_pos (by omega), ← List.getLast?_eq_getElem?]
        exact hlast
    · rw [rawMatchAt_shift, show k + ((c ++ add).length - k) = (c ++ add).length by omega]
      exact hrawD
  · intro q hq
    cases hm : markerAt st (((c ++ add) ++ createComment st v le).drop k) q
    · rfl
    · exfalso
      unfold markerAt at hm
      simp only [Bool.and_eq_true] at hm
      have hraw := hm.2
      rw [rawMatchAt_shift] at hraw
      rw [no_raw_match_before hst hfree hadd hlast (by omega)] at hraw
      cases hraw

/-! ## The trailing-line-ending rule shared by Writer and Reader -/

theorem strip_hash_eq (hs : Nat) (cp : List Nat) :
    (if 0 < cp.length then
       if cp.getLast? = some 10 then
         if 1 < cp.length ∧ cp.get? (cp.length - 2) = some 13 then
           crcUpd hs (cp.take (cp.length - 2))
         else crcUpd hs (cp.take (cp.length - 1))
       else crcUpd hs cp
     else hs) = crcUpd hs (stripLE cp) := by
  unfold stripLE
  by_cases h0 : 0 < cp.length
  · rw [if_pos h0]
    by_cases h10 : cp.getLast? = some 10
    · rw [if_pos h10, if_pos h10]
      by_cases h13 : 1 < cp.length ∧ cp.get? (cp.length - 2) = some 13
      · rw [if_pos h13, if_pos h13]
      · rw [if_neg h13, if_neg h13]
    · rw [if_neg h10, if_neg h10]
  · rw [if_neg h0]
    have hcp : cp = [] := by
      cases hc : cp
      · rfl
      · rw [hc] at h0
        simp at h0
    rw [hcp]
    rfl

theorem hsAfter_eq_strip (cfg : Config) (hs : Nat) (w : List Nat) :
    hsAfter cfg hs w = crcUpd hs (stripLE (cpOf cfg w)) := by
  unfold hsAfter
  simp only
  exact strip_hash_eq hs (cpOf cfg w)

theorem verifyWindow_eq {cfg : Config} {w : List Nat} {p stored : Nat} (hs : Nat)
    (hfind : findMarker cfg.style w = some p)
    (hdec : decodeHex8 (hexSlice cfg.style w p) = some stored) :
    verifyWindow cfg hs w
      = Except.ok (crcFinal (crcUpd hs (stripLE (w.take p))) == stored) := by
  unfold verifyWindow
  rw [hfind]
  dsimp only
  rw [hdec]
  dsimp only
  rw [strip_hash_eq hs (w.take p)]

theorem stripLE_nil : stripLE [] = [] := rfl

theorem stripLE_of_ne {l : List Nat} (h : l.getLast? ≠ some 10) : stripLE l = l := by
  unfold stripLE
  rw [if_neg h]

theorem detectLEAux_cases (prev : Option Nat) (l : List Nat) :
    detectLEAux prev l = [10] ∨ detectLEAux prev l = [13, 10] := by
  induction l generalizing prev with
  | nil => exact Or.inl rfl
  | cons b rest ih =>
    unfold detectLEAux
    by_cases hb : b = 10
    · rw [if_pos hb]
      by_cases hp : prev = some 13
      · rw [if_pos hp]
        exact Or.inr rfl
      · rw [if_neg hp]
        exact Or.inl rfl
    · rw [if_neg hb]
      exact ih (some b)

theorem detectLE_cases (w : List Nat) :
    detectLineEnding w = [10] ∨ detectLineEnding w = [13, 10] := detectLEAux_cases none w

theorem getLast?_append_of_ne {a t : List Nat} (h : t ≠ []) :
    (a ++ t).getLast? = t.getLast? := by
  have ht : 0 < t.length := List.length_pos.mpr h
  rw [List.getLast?_eq_getElem?, List.getLast?_eq_getElem?, List.length_append,
    List.getElem?_append_right (by omega),
    show a.length + t.length - 1 - a.length = t.length - 1 by omega]

theorem stripLE_append {a t : List Nat} (h : 2 ≤ t.length ∨ a = []) :
    a ++ stripLE t = stripLE (a ++ t) := by
  rcases h with h | rfl
  · have htne : t ≠ [] := by
      intro h0
      rw [h0] at h
      simp at h
    unfold stripLE
    rw [getLast?_append_of_ne htne]
    by_cases h10 : t.getLast? = some 10
    · rw [if_pos h10, if_pos h10]
      have hlen : (a ++ t).length = a.length + t.length := List.length_append a t
      have hget : (a ++ t).get? ((a ++ t).length - 2) = t.get? (t.length - 2) := by
        rw [hlen, List.get?_eq_getElem?, List.get?_eq_getElem?,
          List.getElem?_append_right (by omega),
          show a.length + t.length - 2 - a.length = t.length - 2 by omega]
      have hcond : (1 < (a ++ t).length ∧ (a ++ t).get? ((a ++ t).length - 2) = some 13)
          ↔ (1 < t.length ∧ t.get? (t.length - 2) = some 13) := by
        rw [hget, hlen]
        constructor
        · rintro ⟨_, hb⟩
          exact ⟨by omega, hb⟩
        · rintro ⟨_, hb⟩
          exact ⟨by omega, hb⟩
      have htake : ∀ j : Nat, (a ++ t).take (a.length + j) = a ++ t.take j := by
        intro j
        rw [List.take_append_eq_append_take, List.take_of_length_le (by omega),
          show a.length + j - a.length = j by omega]
      by_cases h13 : 1 < t.length ∧ t.get? (t.length - 2) = some 13
      · rw [if_pos h13, if_pos (hcond.mpr h13), hlen,
          show a.length + t.length - 2 = a.length + (t.length - 2) by omega, htake]
      · rw [if_neg h13, if_neg (fun hc => h13 (hcond.mp hc)), hlen,
          show a.length + t.length - 1 = a.length + (t.length - 1) by omega, htake]
    · rw [if_neg h10, if_neg h10]
  · simp

theorem stripLE_lf {c : List Nat} (h : c.getLast? ≠ some 13) : stripLE (c ++ [10]) = c := by
  unfold stripLE
  rw [getLast?_append_of_ne (by simp),
    if_pos (show ([10] : List Nat).getLast? = some 10 by rfl)]
  have hlen : (c ++ [10]).length = c.length + 1 := by simp
  by_cases hc : c = []
  · rw [hc]
    simp
  · have hcl : 0 < c.length := List.length_pos.mpr hc
    have hcond : ¬(1 < (c ++ [10]).length ∧
        (c ++ [10]).get? ((c ++ [10]).length - 2) = some 13) := by
      rintro ⟨_, hb⟩
      rw [hlen, show c.length + 1 - 2 = c.length - 1 by omega, List.get?_eq_getElem?,
        List.getElem?_append, if_pos (by omega), ← List.getLast?_eq_getElem?] at hb
      exact h hb
    rw [if_neg hcond, hlen, show c.length + 1 - 1 = c.length from rfl,
      List.take_append_of_le_length (le_refl _), List.take_length]

theorem stripLE_crlf (c : List Nat) : stripLE (c ++ [13, 10]) = c := by
  unfold stripLE
  rw [getLast?_append_of_ne (by simp),
    if_pos (show ([13, 10] : List Nat).getLast? = some 10 by rfl)]
  have hlen : (c ++ [13, 10]).length = c.length + 2 := by simp
  have hcond : 1 < (c ++ [13, 10]).length ∧
      (c ++ [13, 10]).get? ((c ++ [13, 10]).length - 2) = some 13 := by
    refine ⟨by omega, ?_⟩
    rw [hlen, show c.length + 2 - 2 = c.length from rfl, List.get?_eq_getElem?,
      List.getElem?_append_right (le_refl _), Nat.sub_self]
    rfl
  rw [if_pos hcond, hlen, show c.length + 2 - 2 = c.length from rfl,
    List.take_append_of_le_length (le_refl _), List.take_length]

/-! ## Structure of the Writer's output on marker-free content -/

theorem createComment_length (st : CommentStyle) (v : Nat) (le : List Nat) :
    (createComment st v le).length = coreLen st + le.length := by
  unfold createComment coreLen
  simp only [List.length_append, hex8_length]

theorem windowSize_eq (cfg : Config) : windowSize cfg = coreLen cfg.style + 4 := by
  unfold windowSize maxCommentSize coreLen
  omega

theorem refWin_length (w : Nat) (bs : List Nat) : (refWin w bs).length = min bs.length w := by
  unfold refWin
  rw [List.length_drop]
  omega

theorem getLast?_drop {l : List Nat} {k : Nat} (h : k < l.length) :
    (l.drop k).getLast? = l.getLast? := by
  rw [List.getLast?_eq_getElem?, List.getLast?_eq_getElem?, List.length_drop,
    List.getElem?_drop, show k + (l.length - k - 1) = l.length - 1 by omega]


/-- First pass over non-empty marker-free content that does not end in a CR:
the Writer emits the content, possibly one detected line ending, and a fresh
marker carrying the CRC of the content with one trailing line ending
stripped; never a no-op. -/
theorem processRef_fresh {cfg : Config} {C : List Nat}
    (hfree : rawMarkerFree cfg.style C = true)
    (hC : C ≠ []) (hcr : C.getLast? ≠ some 13) :
    ∃ add le, processRef cfg C
        = ((C ++ add) ++ createComment cfg.style (crc32 (stripLE C)) le, false)
      ∧ (add = [] ∨ add = le) ∧ (le = [10] ∨ le = [13, 10])
      ∧ (C ++ add).getLast? = some 10 ∧ stripLE (C ++ add) = stripLE C := by
  have hlen : 0 < C.length := List.length_pos.mpr hC
  have hW2 : 2 ≤ windowSize cfg := by
    rw [windowSize_eq]
    omega
  have hkC : C.length - min C.length (windowSize cfg) < C.length := by omega
  have hC2 : refPre (windowSize cfg) C ++ refWin (windowSize cfg) C = C := by
    unfold refPre refWin
    exact List.take_append_drop _ _
  have hnone : findMarker cfg.style (refWin (windowSize cfg) C) = none := by
    apply findMarker_none
    intro q
    unfold markerAt refWin
    rw [rawMatchAt_shift, rawMarkerFree_all hfree]
    simp
  have hwlen : 0 < (refWin (windowSize cfg) C).length := by
    rw [refWin_length]
    omega
  have hwlast : (refWin (windowSize cfg) C).getLast? = C.getLast? := getLast?_drop hkC
  have hle : detectLineEnding (refWin (windowSize cfg) C) = [10] ∨
      detectLineEnding (refWin (windowSize cfg) C) = [13, 10] := detectLE_cases _
  have hcp : cpOf cfg (refWin (windowSize cfg) C) = refWin (windowSize cfg) C := by
    unfold cpOf
    rw [hnone]
  have hex : existOf cfg (refWin (windowSize cfg) C) = none := by
    unfold existOf
    rw [hnone]
  have hside : 2 ≤ (refWin (windowSize cfg) C).length ∨ refPre (windowSize cfg) C = [] := by
    by_cases hk0 : C.length - min C.length (windowSize cfg) = 0
    · right
      unfold refPre
      rw [hk0]
      rfl
    · left
      rw [refWin_length]
      omega
  have hsplice : refPre (windowSize cfg) C ++ stripLE (refWin (windowSize cfg) C)
      = stripLE C := by
    rw [stripLE_append hside]
    rw [hC2]
  have hcalc : calcOf cfg (crcUpd crcInit (refPre (windowSize cfg) C))
      (refWin (windowSize cfg) C) = crc32 (stripLE C) := by
    unfold calcOf
    rw [hsAfter_eq_strip, hcp, ← crcUpd_append, hsplice]
    rfl
  have hproc : processRef cfg C = (refPre (windowSize cfg) C ++
      (finalizeWindow cfg (crcUpd crcInit (refPre (windowSize cfg) C))
        (refWin (windowSize cfg) C)).1,
      (finalizeWindow cfg (crcUpd crcInit (refPre (windowSize cfg) C))
        (refWin (windowSize cfg) C)).2) := by
    unfold processRef
    rw [if_neg (by omega)]
  have hfin : finalizeWindow cfg (crcUpd crcInit (refPre (windowSize cfg) C))
      (refWin (windowSize cfg) C)
      = (refWin (windowSize cfg) C ++
          (if needsNLOf cfg (refWin (windowSize cfg) C) = true then
            detectLineEnding (refWin (windowSize cfg) C) else []) ++
          createComment cfg.style (crc32 (stripLE C))
            (detectLineEnding (refWin (windowSize cfg) C)), false) := by
    unfold finalizeWindow
    rw [if_neg (by rw [hex]; simp), hcp, hcalc]
    rfl
  by_cases hnl : C.getLast? = some 10
  · have hneeds : needsNLOf cfg (refWin (windowSize cfg) C) = false := by
      simp only [needsNLOf, hcp, hwlast, hnl]
      simp
    refine ⟨[], detectLineEnding (refWin (windowSize cfg) C), ?_, Or.inl rfl, hle, ?_, ?_⟩
    · rw [hproc, hfin, if_neg (by rw [hneeds]; exact Bool.false_ne_true), Prod.mk.injEq]
      refine ⟨?_, rfl⟩
      simp only [List.append_nil, List.append_assoc]
      conv_lhs => rw [← List.append_assoc, hC2]
    · rw [List.append_nil]
      exact hnl
    · rw [List.append_nil]
  · have hneeds : needsNLOf cfg (refWin (windowSize cfg) C) = true := by
      simp only [needsNLOf, hcp, hwlast]
      simp only [Bool.and_eq_true, decide_eq_true_eq, Bool.not_eq_true']
      refine ⟨hwlen, ?_⟩
      simp only [beq_eq_false_iff_ne, ne_eq]
      exact hnl
    refine ⟨detectLineEnding (refWin (windowSize cfg) C),
      detectLineEnding (refWin (windowSize cfg) C), ?_, Or.inr rfl, hle, ?_, ?_⟩
    · rw [hproc, hfin, if_pos hneeds, Prod.mk.injEq]
      refine ⟨?_, rfl⟩
      simp only [List.append_assoc]
      conv_lhs => rw [← List.append_assoc, hC2]
    · rw [getLast?_append_of_ne ?lene]
      · rcases hle with h | h <;> rw [h] <;> rfl
      case lene =>
        rcases hle with h | h <;> rw [h] <;> simp
    · have hCne10 : stripLE C = C := stripLE_of_ne (by simpa using hnl)
      rcases hle with h | h
      · rw [h, stripLE_lf hcr, hCne10]
      · rw [h, stripLE_crlf, hCne10]

/-! ## Analysis of a stamped file `content ++ line-ending ++ marker` -/

/-- In any split of a stamped file at `k ≤ |content|`, the tail window's
leftmost match is the real marker, its content part is the rest of the
content, and its payload is the rendered hex. -/
theorem stamped_window_facts {cfg : Config} {C add le : List Nat} {v : Nat}
    (hst : styleOk cfg.style = true) (hfree : rawMarkerFree cfg.style C = true)
    (hadd : add = [] ∨ add = [10] ∨ add = [13, 10])
    (hle : le = [10] ∨ le = [13, 10])
    (hlast : (C ++ add).getLast? = some 10)
    {k : Nat} (hk : k ≤ (C ++ add).length) :
    findMarker cfg.style (((C ++ add) ++ createComment cfg.style v le).drop k)
        = some ((C ++ add).length - k)
    ∧ (((C ++ add) ++ createComment cfg.style v le).drop k).take ((C ++ add).length - k)
        = (C ++ add).drop k
    ∧ hexSlice cfg.style (((C ++ add) ++ createComment cfg.style v le).drop k)
        ((C ++ add).length - k) = hex8 v
    ∧ ((C ++ add) ++ createComment cfg.style v le).take k = (C ++ add).take k := by
  refine ⟨findMarker_window hst hfree hadd hle hlast hk, ?_, ?_,
    List.take_append_of_le_length hk⟩
  · rw [List.drop_append_of_le_length hk,
      List.take_append_of_le_length (by simp [List.length_drop]),
      List.take_of_length_le (by simp [List.length_drop])]
  · unfold hexSlice
    rw [List.drop_drop,
      show k + ((C ++ add).length - k + cfg.style.pre.length + keyBytes.length)
        = (C ++ add).length + cfg.style.pre.length + keyBytes.length by omega]
    have hd0 : ((C ++ add) ++ createComment cfg.style v le).drop (C ++ add).length
        = cfg.style.pre ++ (keyBytes ++ (hex8 v ++ (cfg.style.suf ++ le))) := by
      rw [List.drop_left]
      simp [createComment, List.append_assoc]
    have hd1 : ((C ++ add) ++ createComment cfg.style v le).drop
        ((C ++ add).length + cfg.style.pre.length)
        = keyBytes ++ (hex8 v ++ (cfg.style.suf ++ le)) := by
      rw [← List.drop_drop, hd0, List.drop_left]
    have hd2 : ((C ++ add) ++ createComment cfg.style v le).drop
        ((C ++ add).length + cfg.style.pre.length + keyBytes.length)
        = hex8 v ++ (cfg.style.suf ++ le) := by
      rw [← List.drop_drop, hd1, List.drop_left]
    rw [hd2, ← hex8_length v, List.take_left]

/-- Verifying a correctly stamped file succeeds. -/
theorem verifyRef_stamped {cfg : Config} {C add le : List Nat} {v : Nat}
    (hst : styleOk cfg.style = true) (hfree : rawMarkerFree cfg.style C = true)
    (hadd : add = [] ∨ add = [10] ∨ add = [13, 10])
    (hle : le = [10] ∨ le = [13, 10])
    (hlast : (C ++ add).getLast? = some 10)
    (hstrip : stripLE (C ++ add) = stripLE C)
    (hv : v = crc32 (stripLE C)) (hvlt : v < 4294967296) :
    verifyRef cfg ((C ++ add) ++ createComment cfg.style v le) = Except.ok true := by
  have hDpos : 0 < (C ++ add).length := by
    cases hD : C ++ add with
    | nil => rw [hD] at hlast; cases hlast
    | cons x t => simp
  have hle_len : le.length = 1 ∨ le.length = 2 := by
    rcases hle with h | h <;> rw [h] <;> simp
  have hcc_len : (createComment cfg.style v le).length = coreLen cfg.style + le.length :=
    createComment_length _ _ _
  have holen : ((C ++ add) ++ createComment cfg.style v le).length
      = (C ++ add).length + (coreLen cfg.style + le.length) := by
    rw [List.length_append, hcc_len]
  have hW : windowSize cfg = coreLen cfg.style + 4 := windowSize_eq cfg
  have hk : ((C ++ add) ++ createComment cfg.style v le).length -
      min ((C ++ add) ++ createComment cfg.style v le).length (windowSize cfg)
      ≤ (C ++ add).length := by omega
  have hkcond : ((C ++ add) ++ createComment cfg.style v le).length -
        min ((C ++ add) ++ createComment cfg.style v le).length (windowSize cfg) = 0
      ∨ 2 ≤ (C ++ add).length -
        (((C ++ add) ++ createComment cfg.style v le).length -
          min ((C ++ add) ++ createComment cfg.style v le).length (windowSize cfg)) := by
    omega
  obtain ⟨hfind, htake, hhex, htk⟩ := stamped_window_facts (v := v) hst hfree hadd hle hlast hk
  have hdec : decodeHex8 (hexSlice cfg.style
      (((C ++ add) ++ createComment cfg.style v le).drop
        (((C ++ add) ++ createComment cfg.style v le).length -
          min ((C ++ add) ++ createComment cfg.style v le).length (windowSize cfg)))
      ((C ++ add).length -
        (((C ++ add) ++ createComment cfg.style v le).length -
          min ((C ++ add) ++ createComment cfg.style v le).length (windowSize cfg))))
      = some v := by
    rw [hhex, decodeHex8_hex8, Nat.mod_eq_of_lt hvlt]
  have hsplice : (C ++ add).take (((C ++ add) ++ createComment cfg.style v le).length -
        min ((C ++ add) ++ createComment cfg.style v le).length (windowSize cfg))
      ++ stripLE ((C ++ add).drop (((C ++ add) ++ createComment cfg.style v le).length -
        min ((C ++ add) ++ createComment cfg.style v le).length (windowSize cfg)))
      = stripLE (C ++ add) := by
    rw [stripLE_append ?side, List.take_append_drop]
    case side =>
      rcases hkcond with h0 | h0
      · right
        rw [h0]
        rfl
      · left
        rw [List.length_drop]
        omega
  have hver : verifyRef cfg ((C ++ add) ++ createComment cfg.style v le)
      = verifyWindow cfg
          (crcUpd crcInit (refPre (windowSize cfg)
            ((C ++ add) ++ createComment cfg.style v le)))
          (refWin (windowSize cfg) ((C ++ add) ++ createComment cfg.style v le)) := by
    unfold verifyRef
    rw [if_neg (by omega)]
  rw [hver]
  unfold refPre refWin
  rw [verifyWindow_eq _ hfind hdec, htake, htk, ← crcUpd_append, hsplice, hstrip]
  have hcv : crcFinal (crcUpd crcInit (stripLE C)) = v := by
    rw [hv]
    rfl
  rw [hcv, beq_self_eq_true]

/-- Re-stamping a correctly stamped file is a byte-identical no-op. -/
theorem processRef_stamped {cfg : Config} {C add le : List Nat} {v : Nat}
    (hst : styleOk cfg.style = true) (hfree : rawMarkerFree cfg.style C = true)
    (hadd : add = [] ∨ add = [10] ∨ add = [13, 10])
    (hle : le = [10] ∨ le = [13, 10])
    (hlast : (C ++ add).getLast? = some 10)
    (hstrip : stripLE (C ++ add) = stripLE C)
    (hv : v = crc32 (stripLE C)) (hvlt : v < 4294967296) :
    processRef cfg ((C ++ add) ++ createComment cfg.style v le)
      = ((C ++ add) ++ createComment cfg.style v le, true) := by
  have hDpos : 0 < (C ++ add).length := by
    cases hD : C ++ add with
    | nil => rw [hD] at hlast; cases hlast
    | cons x t => simp
  have hle_len : le.length = 1 ∨ le.length = 2 := by
    rcases hle with h | h <;> rw [h] <;> simp
  have hcc_len : (createComment cfg.style v le).length = coreLen cfg.style + le.length :=
    createComment_length _ _ _
  have holen : ((C ++ add) ++ createComment cfg.style v le).length
      = (C ++ add).length + (coreLen cfg.style + le.length) := by
    rw [List.length_append, hcc_len]
  have hW : windowSize cfg = coreLen cfg.style + 4 := windowSize_eq cfg
  have hk : ((C ++ add) ++ createComment cfg.style v le).length -
      min ((C ++ add) ++ createComment cfg.style v le).length (windowSize cfg)
      ≤ (C ++ add).length := by omega
  have hkcond : ((C ++ add) ++ createComment cfg.style v le).length -
        min ((C ++ add) ++ createComment cfg.style v le).length (windowSize cfg) = 0
      ∨ 2 ≤ (C ++ add).length -
        (((C ++ add) ++ createComment cfg.style v le).length -
          min ((C ++ add) ++ createComment cfg.style v le).length (windowSize cfg)) := by
    omega
  obtain ⟨hfind, htake, hhex, htk⟩ := stamped_window_facts (v := v) hst hfree hadd hle hlast hk
  have hcp : cpOf cfg (((C ++ add) ++ createComment cfg.style v le).drop
      (((C ++ add) ++ createComment cfg.style v le).length -
        min ((C ++ add) ++ createComment cfg.style v le).length (windowSize cfg)))
      = (C ++ add).drop (((C ++ add) ++ createComment cfg.style v le).length -
        min ((C ++ add) ++ createComment cfg.style v le).length (windowSize cfg)) := by
    unfold cpOf
    rw [hfind]
    dsimp only
    rw [htake]
  have hex : existOf cfg (((C ++ add) ++ createComment cfg.style v le).drop
      (((C ++ add) ++ createComment cfg.style v le).length -
        min ((C ++ add) ++ createComment cfg.style v le).length (windowSize cfg)))
      = some v := by
    unfold existOf
    rw [hfind]
    dsimp only
    rw [hhex, decodeHex8_hex8, Nat.mod_eq_of_lt hvlt]
  have hsplice : (C ++ add).take (((C ++ add) ++ createComment cfg.style v le).length -
        min ((C ++ add) ++ createComment cfg.style v le).length (windowSize cfg))
      ++ stripLE ((C ++ add).drop (((C ++ add) ++ createComment cfg.style v le).length -
        min ((C ++ add) ++ createComment cfg.style v le).length (windowSize cfg)))
      = stripLE (C ++ add) := by
    rw [stripLE_append ?side, List.take_append_drop]
    case side =>
      rcases hkcond with h0 | h0
      · right
        rw [h0]
        rfl
      · left
        rw [List.length_drop]
        omega
  have hcalc : calcOf cfg
      (crcUpd crcInit (((C ++ add) ++ createComment cfg.style v le).take
        (((C ++ add) ++ createComment cfg.style v le).length -
          min ((C ++ add) ++ createComment cfg.style v le).length (windowSize cfg))))
      (((C ++ add) ++ createComment cfg.style v le).drop
        (((C ++ add) ++ createComment cfg.style v le).length -
          min ((C ++ add) ++ createComment cfg.style v le).length (windowSize cfg))) = v := by
    unfold calcOf
    rw [hsAfter_eq_strip, hcp, htk, ← crcUpd_append, hsplice, hstrip, hv]
    rfl
  have hfin : finalizeWindow cfg
      (crcUpd crcInit (((C ++ add) ++ createComment cfg.style v le).take
        (((C ++ add) ++ createComment cfg.style v le).length -
          min ((C ++ add) ++ createComment cfg.style v le).length (windowSize cfg))))
      (((C ++ add) ++ createComment cfg.style v le).drop
        (((C ++ add) ++ createComment cfg.style v le).length -
          min ((C ++ add) ++ createComment cfg.style v le).length (windowSize cfg)))
      = (((C ++ add) ++ createComment cfg.style v le).drop
          (((C ++ add) ++ createComment cfg.style v le).length -
            min ((C ++ add) ++ createComment cfg.style v le).length (windowSize cfg)),
        true) := by
    unfold finalizeWindow
    rw [if_pos ?hc]
    case hc =>
      rw [hex, hcalc]
  have hpro : processRef cfg ((C ++ add) ++ createComment cfg.style v le)
      = (refPre (windowSize cfg) ((C ++ add) ++ createComment cfg.style v le) ++
          (finalizeWindow cfg
            (crcUpd crcInit (refPre (windowSize cfg)
              ((C ++ add) ++ createComment cfg.style v le)))
            (refWin (windowSize cfg) ((C ++ add) ++ createComment cfg.style v le))).1,
        (finalizeWindow cfg
          (crcUpd crcInit (refPre (windowSize cfg)
            ((C ++ add) ++ createComment cfg.style v le)))
          (refWin (windowSize cfg) ((C ++ add) ++ createComment cfg.style v le))).2) := by
    unfold processRef
    rw [if_neg (by omega)]
  rw [hpro]
  unfold refPre refWin
  rw [hfin, List.take_append_drop]

/-! ## Refinement: the sliding-window loop equals the in-memory reference -/

theorem ref_shift {W : Nat} {a bs : List Nat} (h : W ≤ bs.length) :
    refPre W (a ++ bs) = a ++ refPre W bs ∧ refWin W (a ++ bs) = refWin W bs := by
  constructor
  · unfold refPre
    rw [List.length_append,
      show a.length + bs.length - min (a.length + bs.length) W
        = a.length + (bs.length - min bs.length W) by omega,
      List.take_append_eq_append_take, List.take_of_length_le (by omega),
      show a.length + (bs.length - min bs.length W) - a.length
        = bs.length - min bs.length W by omega]
  · unfold refWin
    rw [List.length_append,
      show a.length + bs.length - min (a.length + bs.length) W
        = a.length + (bs.length - min bs.length W) by omega,
      ← List.drop_drop, List.drop_left]

theorem getLast?_cons_of_ne {c : List Nat} {rest : List (List Nat)} (h : rest ≠ []) :
    (c :: rest).getLast? = rest.getLast? := by
  have h0 : c :: rest = [c] ++ rest := rfl
  rw [h0]
  have hl : 0 < rest.length := List.length_pos.mpr h
  rw [List.getLast?_eq_getElem?, List.getLast?_eq_getElem?, List.length_append,
    List.getElem?_append_right (by simp; omega)]
  simp

theorem streamLoop_eof (cfg : Config) (first : Bool) (hs : Nat) (out buf : List Nat)
    (cs : List (List Nat)) : streamLoop cfg first hs out buf cs true = some (hs, out, buf) := by
  cases first <;> simp only [streamLoop]

theorem streamLoop_false_step (cfg : Config) (hs : Nat) (out buf : List Nat)
    (cs : List (List Nat)) :
    streamLoop cfg false hs out buf cs false
      = match slideStep cfg false hs out buf with
        | none => none
        | some (hs1, out1, buf1) =>
          match cs with
          | [] => some (hs1, out1, buf1)
          | c :: rest =>
            if cfg.bufferSize - buf1.length < c.length then none
            else streamLoop cfg false hs1 out1 (buf1 ++ c) rest rest.isEmpty := by
  simp only [streamLoop]

theorem streamLoop_true_step (cfg : Config) (hs : Nat) (out buf : List Nat)
    (cs : List (List Nat)) :
    streamLoop cfg true hs out buf cs false
      = match slideStep cfg true hs out buf with
        | none => none
        | some (hs1, out1, buf1) =>
          match cs with
          | [] => some (hs1, out1, buf1)
          | c :: rest =>
            if cfg.bufferSize - buf1.length < c.length then none
            else streamLoop cfg false hs1 out1 (buf1 ++ c) rest rest.isEmpty := by
  simp only [streamLoop]

theorem slideStep_false_none {cfg : Config} {hs : Nat} {out buf : List Nat}
    (h : buf.length < windowSize cfg) : slideStep cfg false hs out buf = none := by
  unfold slideStep
  rw [if_neg Bool.false_ne_true, if_pos h]

theorem slideStep_false_some {cfg : Config} {hs : Nat} {out buf : List Nat}
    (h : ¬buf.length < windowSize cfg) :
    slideStep cfg false hs out buf
      = some (crcUpd hs (buf.take (buf.length - windowSize cfg)),
          out ++ buf.take (buf.length - windowSize cfg),
          buf.drop (buf.length - windowSize cfg)) := by
  unfold slideStep
  rw [if_neg Bool.false_ne_true, if_neg h]

theorem slideStep_true_big {cfg : Config} {hs : Nat} {out buf : List Nat}
    (h : windowSize cfg < buf.length) :
    slideStep cfg true hs out buf
      = some (crcUpd hs (buf.take (buf.length - windowSize cfg)),
          out ++ buf.take (buf.length - windowSize cfg),
          buf.drop (buf.length - windowSize cfg)) := by
  unfold slideStep
  rw [if_pos rfl, if_pos h]

theorem slideStep_true_small {cfg : Config} {hs : Nat} {out buf : List Nat}
    (h : ¬windowSize cfg < buf.length) :
    slideStep cfg true hs out buf = some (hs, out, buf) := by
  unfold slideStep
  rw [if_pos rfl, if_neg h]

/-- Invariant of the subsequent-iteration loop: on a delivery that ends with
a zero-byte EOF read, a completing run produces exactly the reference split
of the buffered bytes plus the remaining input. -/
theorem streamLoop_false_ref {cfg : Config} : ∀ (cs : List (List Nat))
    (hs : Nat) (out buf : List Nat) (r : Nat × List Nat × List Nat),
    cs.getLast? = some [] →
    streamLoop cfg false hs out buf cs false = some r →
    windowSize cfg ≤ buf.length ∧
    r = (crcUpd hs (refPre (windowSize cfg) (buf ++ cs.flatten)),
         out ++ refPre (windowSize cfg) (buf ++ cs.flatten),
         refWin (windowSize cfg) (buf ++ cs.flatten)) := by
  intro cs
  induction cs with
  | nil => intro hs out buf r hlast _; simp at hlast
  | cons c rest ih =>
    intro hs out buf r hlast h
    rw [streamLoop_false_step] at h
    by_cases hlt : buf.length < windowSize cfg
    · rw [slideStep_false_none hlt] at h
      dsimp only at h
      exact absurd h (by simp)
    · refine ⟨by omega, ?_⟩
      rw [slideStep_false_some hlt] at h
      dsimp only at h
      have hrefb : refPre (windowSize cfg) buf = buf.take (buf.length - windowSize cfg) := by
        unfold refPre
        rw [show buf.length - min buf.length (windowSize cfg)
          = buf.length - windowSize cfg by omega]
      have hrefw : refWin (windowSize cfg) buf = buf.drop (buf.length - windowSize cfg) := by
        unfold refWin
        rw [show buf.length - min buf.length (windowSize cfg)
          = buf.length - windowSize cfg by omega]
      by_cases hfree : cfg.bufferSize - (buf.drop (buf.length - windowSize cfg)).length
          < c.length
      · rw [if_pos hfree] at h
        exact absurd h (by simp)
      · rw [if_neg hfree] at h
        cases rest with
        | nil =>
          have hc : c = [] := by simpa using hlast
          subst hc
          rw [show (([] : List (List Nat))).isEmpty = true from rfl, streamLoop_eof,
            Option.some_inj] at h
          rw [← h]
          simp only [List.flatten_cons, List.flatten_nil, List.append_nil]
          rw [hrefb, hrefw]
        | cons c2 rest2 =>
          rw [show (c2 :: rest2).isEmpty = false from rfl] at h
          have hlast2 : (c2 :: rest2).getLast? = some [] := by
            rw [getLast?_cons_of_ne (by simp)] at hlast
            exact hlast
          obtain ⟨hwb, hr⟩ := ih (crcUpd hs (buf.take (buf.length - windowSize cfg)))
            (out ++ buf.take (buf.length - windowSize cfg))
            (buf.drop (buf.length - windowSize cfg) ++ c) r hlast2 h
          have hwin2 : windowSize cfg
              ≤ (buf.drop (buf.length - windowSize cfg) ++ c ++ (c2 :: rest2).flatten).length := by
            rw [List.length_append, List.length_append, List.length_drop]
            omega
          have hshift := @ref_shift (windowSize cfg) (buf.take (buf.length - windowSize cfg))
            (buf.drop (buf.length - windowSize cfg) ++ c ++ (c2 :: rest2).flatten) hwin2
          have hassoc : buf.take (buf.length - windowSize cfg) ++
              (buf.drop (buf.length - windowSize cfg) ++ c ++ (c2 :: rest2).flatten)
              = buf ++ (c :: c2 :: rest2).flatten := by
            rw [show (c :: c2 :: rest2).flatten = c ++ (c2 :: rest2).flatten from rfl,
              ← List.append_assoc, ← List.append_assoc, List.take_append_drop,
              List.append_assoc]
          rw [hassoc] at hshift
          rw [hr, hshift.1, hshift.2, crcUpd_append]
          simp [List.append_assoc]

/-- The first loop iteration on a good delivery: a completing run produces
the reference split of the whole input. -/
theorem streamLoop_true_ref {cfg : Config} {c : List Nat} {cs : List (List Nat)}
    {r : Nat × List Nat × List Nat}
    (hlast : cs.getLast? = some [])
    (h : streamLoop cfg true crcInit [] c cs false = some r) :
    r = (crcUpd crcInit (refPre (windowSize cfg) (c ++ cs.flatten)),
         refPre (windowSize cfg) (c ++ cs.flatten),
         refWin (windowSize cfg) (c ++ cs.flatten)) := by
  rw [streamLoop_true_step] at h
  by_cases hbig : windowSize cfg < c.length
  · rw [slideStep_true_big hbig] at h
    dsimp only at h
    have hrefb : refPre (windowSize cfg) c = c.take (c.length - windowSize cfg) := by
      unfold refPre
      rw [show c.length - min c.length (windowSize cfg) = c.length - windowSize cfg by omega]
    have hrefw : refWin (windowSize cfg) c = c.drop (c.length - windowSize cfg) := by
      unfold refWin
      rw [show c.length - min c.length (windowSize cfg) = c.length - windowSize cfg by omega]
    cases cs with
    | nil => simp at hlast
    | cons c2 rest2 =>
      dsimp only at h
      by_cases hfree : cfg.bufferSize - (c.drop (c.length - windowSize cfg)).length
          < c2.length
      · rw [if_pos hfree] at h
        exact absurd h (by simp)
      · rw [if_neg hfree] at h
        cases rest2 with
        | nil =>
          have hc2 : c2 = [] := by simpa using hlast
          subst hc2
          rw [show (([] : List (List Nat))).isEmpty = true from rfl, streamLoop_eof,
            Option.some_inj] at h
          rw [← h]
          simp only [List.flatten_cons, List.flatten_nil, List.append_nil, List.nil_append]
          rw [hrefb, hrefw]
        | cons c3 rest3 =>
          rw [show (c3 :: rest3).isEmpty = false from rfl] at h
          have hlast2 : (c3 :: rest3).getLast? = some [] := by
            rw [getLast?_cons_of_ne (by simp)] at hlast
            exact hlast
          obtain ⟨hwb, hr⟩ := streamLoop_false_ref (c3 :: rest3)
            (crcUpd crcInit (c.take (c.length - windowSize cfg)))
            ([] ++ c.take (c.length - windowSize cfg))
            (c.drop (c.length - windowSize cfg) ++ c2) r hlast2 h
          have hwin2 : windowSize cfg
              ≤ (c.drop (c.length - windowSize cfg) ++ c2 ++ (c3 :: rest3).flatten).length := by
            rw [List.length_append, List.length_append, List.length_drop]
            omega
          have hshift := @ref_shift (windowSize cfg) (c.take (c.length - windowSize cfg))
            (c.drop (c.length - windowSize cfg) ++ c2 ++ (c3 :: rest3).flatten) hwin2
          have hassoc : c.take (c.length - windowSize cfg) ++
              (c.drop (c.length - windowSize cfg) ++ c2 ++ (c3 :: rest3).flatten)
              = c ++ (c2 :: c3 :: rest3).flatten := by
            rw [show (c2 :: c3 :: rest3).flatten = c2 ++ (c3 :: rest3).flatten from rfl,
              ← List.append_assoc, ← List.append_assoc, List.take_append_drop,
              List.append_assoc]
          rw [hassoc] at hshift
          rw [hr, hshift.1, hshift.2, crcUpd_append]
          simp [List.append_assoc]
  · rw [slideStep_true_small hbig] at h
    dsimp only at h
    cases cs with
    | nil => simp at hlast
    | cons c2 rest2 =>
      dsimp only at h
      by_cases hfree : cfg.bufferSize - c.length < c2.length
      · rw [if_pos hfree] at h
        exact absurd h (by simp)
      · rw [if_neg hfree] at h
        cases rest2 with
        | nil =>
          have hc2 : c2 = [] := by simpa using hlast
          subst hc2
          rw [show (([] : List (List Nat))).isEmpty = true from rfl, streamLoop_eof,
            Option.some_inj] at h
          rw [← h]
          simp only [List.flatten_cons, List.flatten_nil, List.append_nil]
          have h1 : refPre (windowSize cfg) c = [] := by
            unfold refPre
            rw [show c.length - min c.length (windowSize cfg) = 0 by omega, List.take_zero]
          have h2 : refWin (windowSize cfg) c = c := by
            unfold refWin
            rw [show c.length - min c.length (windowSize cfg) = 0 by omega, List.drop_zero]
          rw [h1, h2]
          rfl
        | cons c3 rest3 =>
          rw [show (c3 :: rest3).isEmpty = false from rfl] at h
          have hlast2 : (c3 :: rest3).getLast? = some [] := by
            rw [getLast?_cons_of_ne (by simp)] at hlast
            exact hlast
          obtain ⟨hwb, hr⟩ := streamLoop_false_ref (c3 :: rest3) crcInit [] (c ++ c2) r
            hlast2 h
          rw [hr]
          have hassoc : c ++ c2 ++ (c3 :: rest3).flatten
              = c ++ (c2 :: c3 :: rest3).flatten := by
            rw [show (c2 :: c3 :: rest3).flatten = c2 ++ (c3 :: rest3).flatten from rfl,
              List.append_assoc]
          rw [hassoc]
          simp

theorem goodDelivery_cons {c : List Nat} {rest : List (List Nat)}
    (h : goodDeliveryB (c :: rest) = true) :
    (c :: rest).getLast? = some [] ∧
    (c :: rest).dropLast.all (fun x => !x.isEmpty) = true := by
  unfold goodDeliveryB at h
  simp only [List.isEmpty_cons, Bool.false_or, Bool.and_eq_true, beq_iff_eq] at h
  exact ⟨h.1, h.2⟩

/-- The Writer's streaming pass refines the in-memory reference on every
good delivery that completes. -/
theorem processStreamChunks_ref {cfg : Config} {cs : List (List Nat)} {r : List Nat × Bool}
    (hgood : goodDeliveryB cs = true) (h : processStreamChunks cfg cs = some r) :
    r = processRef cfg cs.flatten := by
  cases cs with
  | nil =>
    unfold processStreamChunks at h
    dsimp only [readChunk] at h
    rw [if_neg (by simp), if_pos (show List.length ([] : List Nat) = 0 from rfl),
      Option.some_inj] at h
    rw [← h]
    rfl
  | cons c rest =>
    unfold processStreamChunks at h
    dsimp only [readChunk] at h
    by_cases hB : cfg.bufferSize < c.length
    · rw [if_pos hB] at h
      exact absurd h (by simp)
    rw [if_neg hB] at h
    by_cases hc0 : c.length = 0
    · rw [if_pos hc0, Option.some_inj] at h
      have hc : c = [] := List.length_eq_zero.mp hc0
      subst hc
      have hrest : rest = [] := by
        cases hr2 : rest with
        | nil => rfl
        | cons d ds =>
          exfalso
          rw [hr2] at hgood
          have := (goodDelivery_cons hgood).2
          simp [List.dropLast] at this
      subst hrest
      rw [← h]
      rfl
    rw [if_neg hc0] at h
    cases rest with
    | nil =>
      exfalso
      have := (goodDelivery_cons hgood).1
      simp only [List.getLast?_singleton, Option.some.injEq] at this
      rw [this] at hc0
      exact hc0 rfl
    | cons c2 rest2 =>
      rw [show (c2 :: rest2).isEmpty = false from rfl] at h
      have hlast : (c2 :: rest2).getLast? = some [] := by
        have := (goodDelivery_cons hgood).1
        rw [getLast?_cons_of_ne (by simp)] at this
        exact this
      cases hsl : streamLoop cfg true crcInit [] c (c2 :: rest2) false with
      | none =>
        rw [hsl] at h
        exact absurd h (by simp)
      | some t =>
        obtain ⟨hs1, out1, win1⟩ := t
        rw [hsl] at h
        dsimp only at h
        rw [Option.some_inj] at h
        have ht := streamLoop_true_ref hlast hsl
        injection ht with ht1 htr
        injection htr with ht2 ht3
        have hFne : (c ++ (c2 :: rest2).flatten).length ≠ 0 := by
          rw [List.length_append]
          omega
        have hpr : processRef cfg (c ++ (c2 :: rest2).flatten)
            = (refPre (windowSize cfg) (c ++ (c2 :: rest2).flatten) ++
                (finalizeWindow cfg
                  (crcUpd crcInit (refPre (windowSize cfg) (c ++ (c2 :: rest2).flatten)))
                  (refWin (windowSize cfg) (c ++ (c2 :: rest2).flatten))).1,
              (finalizeWindow cfg
                (crcUpd crcInit (refPre (windowSize cfg) (c ++ (c2 :: rest2).flatten)))
                (refWin (windowSize cfg) (c ++ (c2 :: rest2).flatten))).2) := by
          unfold processRef
          rw [if_neg hFne]
        rw [show (c :: c2 :: rest2).flatten = c ++ (c2 :: rest2).flatten from rfl, hpr,
          ← h, ht1, ht2, ht3]

/-- The Reader's streaming pass refines the in-memory reference on every
good delivery that completes. -/
theorem verifyStreamChunks_ref {cfg : Config} {cs : List (List Nat)} {r : Except String Bool}
    (hgood : goodDeliveryB cs = true) (h : verifyStreamChunks cfg cs = some r) :
    r = verifyRef cfg cs.flatten := by
  cases cs with
  | nil =>
    unfold verifyStreamChunks at h
    dsimp only [readChunk] at h
    rw [if_neg (by simp), if_pos (show List.length ([] : List Nat) = 0 from rfl),
      Option.some_inj] at h
    rw [← h]
    rfl
  | cons c rest =>
    unfold verifyStreamChunks at h
    dsimp only [readChunk] at h
    by_cases hB : cfg.bufferSize < c.length
    · rw [if_pos hB] at h
      exact absurd h (by simp)
    rw [if_neg hB] at h
    by_cases hc0 : c.length = 0
    · rw [if_pos hc0, Option.some_inj] at h
      have hc : c = [] := List.length_eq_zero.mp hc0
      subst hc
      have hrest : rest = [] := by
        cases hr2 : rest with
        | nil => rfl
        | cons d ds =>
          exfalso
          rw [hr2] at hgood
          have := (goodDelivery_cons hgood).2
          simp [List.dropLast] at this
      subst hrest
      rw [← h]
      rfl
    rw [if_neg hc0] at h
    cases rest with
    | nil =>
      exfalso
      have := (goodDelivery_cons hgood).1
      simp only [List.getLast?_singleton, Option.some.injEq] at this
      rw [this] at hc0
      exact hc0 rfl
    | cons c2 rest2 =>
      rw [show (c2 :: rest2).isEmpty = false from rfl] at h
      have hlast : (c2 :: rest2).getLast? = some [] := by
        have := (goodDelivery_cons hgood).1
        rw [getLast?_cons_of_ne (by simp)] at this
        exact this
      cases hsl : streamLoop cfg true crcInit [] c (c2 :: rest2) false with
      | none =>
        rw [hsl] at h
        exact absurd h (by simp)
      | some t =>
        obtain ⟨hs1, out1, win1⟩ := t
        rw [hsl] at h
        dsimp only at h
        rw [Option.some_inj] at h
        have ht := streamLoop_true_ref hlast hsl
        injection ht with ht1 htr
        injection htr with ht2 ht3
        have hFne : (c ++ (c2 :: rest2).flatten).length ≠ 0 := by
          rw [List.length_append]
          omega
        have hvr : verifyRef cfg (c ++ (c2 :: rest2).flatten)
            = verifyWindow cfg
                (crcUpd crcInit (refPre (windowSize cfg) (c ++ (c2 :: rest2).flatten)))
                (refWin (windowSize cfg) (c ++ (c2 :: rest2).flatten)) := by
          unfold verifyRef
          rw [if_neg hFne]
        rw [show (c :: c2 :: rest2).flatten = c ++ (c2 :: rest2).flatten from rfl, hvr,
          ← h, ht1, ht3]

/-! ## Loop safety: the slices stay in bounds when the first read fills the
window -/

/-- A delivery the loop is safe on: the first read either returns nothing or
fills at least the window (and fits the buffer), and every later read fits
the space left beside a full window. -/
def safeDeliveryB (cfg : Config) : List (List Nat) → Bool
  | [] => true
  | c :: rest =>
    (c.length == 0) ||
    (decide (windowSize cfg ≤ c.length) && decide (c.length ≤ cfg.bufferSize) &&
      rest.all fun d => decide (d.length ≤ cfg.bufferSize - windowSize cfg))

theorem streamLoop_false_safe {cfg : Config} : ∀ (cs : List (List Nat)) (hs : Nat)
    (out buf : List Nat) (eof : Bool),
    windowSize cfg ≤ buf.length →
    (∀ d ∈ cs, d.length ≤ cfg.bufferSize - windowSize cfg) →
    (streamLoop cfg false hs out buf cs eof).isSome = true := by
  intro cs
  induction cs with
  | nil =>
    intro hs out buf eof hbuf hall
    cases eof
    · rw [streamLoop_false_step, slideStep_false_some (by omega)]
      dsimp only
      simp
    · rw [streamLoop_eof]
      simp
  | cons c rest ih =>
    intro hs out buf eof hbuf hall
    cases eof
    · rw [streamLoop_false_step, slideStep_false_some (by omega)]
      dsimp only
      rw [if_neg ?hfree]
      case hfree =>
        rw [List.length_drop]
        have hc := hall c (List.mem_cons_self c rest)
        omega
      exact ih _ _ _ _ (by rw [List.length_append, List.length_drop]; omega)
        fun d hd => hall d (List.mem_cons_of_mem _ hd)
    · rw [streamLoop_eof]
      simp

theorem streamLoop_true_safe {cfg : Config} {c : List Nat} {cs : List (List Nat)}
    {eof : Bool} (hcW : windowSize cfg ≤ c.length) (hcB : c.length ≤ cfg.bufferSize)
    (hall : ∀ d ∈ cs, d.length ≤ cfg.bufferSize - windowSize cfg) :
    (streamLoop cfg true crcInit [] c cs eof).isSome = true := by
  cases eof
  · rw [streamLoop_true_step]
    by_cases hbig : windowSize cfg < c.length
    · rw [slideStep_true_big hbig]
      dsimp only
      cases cs with
      | nil => simp
      | cons c2 rest =>
        dsimp only
        rw [if_neg ?hfree]
        case hfree =>
          rw [List.length_drop]
          have hc2 := hall c2 (List.mem_cons_self c2 rest)
          omega
        exact streamLoop_false_safe rest _ _ _ _
          (by rw [List.length_append, List.length_drop]; omega)
          fun d hd => hall d (List.mem_cons_of_mem _ hd)
    · rw [slideStep_true_small hbig]
      dsimp only
      cases cs with
      | nil => simp
      | cons c2 rest =>
        dsimp only
        rw [if_neg ?hfree2]
        case hfree2 =>
          have hc2 := hall c2 (List.mem_cons_self c2 rest)
          omega
        exact streamLoop_false_safe rest _ _ _ _
          (by rw [List.length_append]; omega)
          fun d hd => hall d (List.mem_cons_of_mem _ hd)
  · rw [streamLoop_eof]
    simp

theorem stream_safe {cfg : Config} {cs : List (List Nat)}
    (hs : safeDeliveryB cfg cs = true) :
    (processStreamChunks cfg cs).isSome = true ∧ (verifyStreamChunks cfg cs).isSome = true := by
  cases cs with
  | nil =>
    constructor
    · unfold processStreamChunks
      dsimp only [readChunk]
      rw [if_neg (by simp), if_pos (show List.length ([] : List Nat) = 0 from rfl)]
      simp
    · unfold verifyStreamChunks
      dsimp only [readChunk]
      rw [if_neg (by simp), if_pos (show List.length ([] : List Nat) = 0 from rfl)]
      simp
  | cons c rest =>
    unfold safeDeliveryB at hs
    simp only [Bool.or_eq_true, Bool.and_eq_true, beq_iff_eq, decide_eq_true_eq,
      List.all_eq_true] at hs
    rcases hs with hc0 | ⟨⟨hcW, hcB⟩, hall⟩
    · constructor
      · unfold processStreamChunks
        dsimp only [readChunk]
        rw [if_neg (by omega), if_pos hc0]
        simp
      · unfold verifyStreamChunks
        dsimp only [readChunk]
        rw [if_neg (by omega), if_pos hc0]
        simp
    · have hall2 : ∀ d ∈ rest, d.length ≤ cfg.bufferSize - windowSize cfg := by
        intro d hd
        exact hall d hd
      have hloop := @streamLoop_true_safe cfg c rest rest.isEmpty hcW hcB hall2
      have hW2 : 2 ≤ windowSize cfg := by
        rw [windowSize_eq]
        omega
      constructor
      · unfold processStreamChunks
        dsimp only [readChunk]
        rw [if_neg (by omega), if_neg (by omega)]
        cases hsl : streamLoop cfg true crcInit [] c rest rest.isEmpty with
        | none => rw [hsl] at hloop; simp at hloop
        | some t =>
          obtain ⟨a, b, w⟩ := t
          simp
      · unfold verifyStreamChunks
        dsimp only [readChunk]
        rw [if_neg (by omega), if_neg (by omega)]
        cases hsl : streamLoop cfg true crcInit [] c rest rest.isEmpty with
        | none => rw [hsl] at hloop; simp at hloop
        | some t =>
          obtain ⟨a, b, w⟩ := t
          simp

/-! ## Remaining support lemmas -/

theorem crc32_lt (l : List Nat) : crc32 l < 4294967296 :=
  crcFinal_lt (crcUpd_lt l (by decide))

theorem hexVal_isSome_of_isUpHex {b : Nat} (h : isUpHex b = true) :
    (hexVal b).isSome = true := by
  unfold isUpHex at h
  unfold hexVal
  simp only [Bool.or_eq_true, Bool.and_eq_true, decide_eq_true_eq] at h
  rcases h with ⟨h1, h2⟩ | ⟨h1, h2⟩
  · rw [if_pos ⟨h1, h2⟩]
    rfl
  · rw [if_neg (by omega), if_pos ⟨h1, h2⟩]
    rfl

theorem decodeHexAcc_isSome : ∀ (l : List Nat) (a : Nat), l.all isUpHex = true →
    (decodeHexAcc a l).isSome = true := by
  intro l
  induction l with
  | nil => intro a _; rfl
  | cons b rest ih =>
    intro a h
    rw [List.all_cons, Bool.and_eq_true] at h
    have hv := hexVal_isSome_of_isUpHex h.1
    cases hvv : hexVal b with
    | none => rw [hvv] at hv; simp at hv
    | some v =>
      rw [show decodeHexAcc a (b :: rest) = decodeHexAcc (a * 16 + v) rest from by
        rw [decodeHexAcc, hvv]]
      exact ih _ h.2

theorem decodeHex8_isSome {l : List Nat} (h8 : l.length = 8) (hx : l.all isUpHex = true) :
    (decodeHex8 l).isSome = true := by
  unfold decodeHex8
  rw [if_pos h8]
  exact decodeHexAcc_isSome l 0 hx

theorem markerAt_hexSlice {st : CommentStyle} {w : List Nat} {p : Nat}
    (h : markerAt st w p = true) :
    (hexSlice st w p).length = 8 ∧ (hexSlice st w p).all isUpHex = true := by
  unfold markerAt at h
  rw [Bool.and_eq_true] at h
  have h2 := h.2
  unfold rawMatchAt at h2
  rw [Bool.and_eq_true] at h2
  have h3 := h2.1
  unfold coreMatchAt at h3
  simp only [Bool.and_eq_true, beq_iff_eq] at h3
  unfold hexSlice
  exact h3.1.2

/-! ## Concrete data for the claims -/

/-- The Writer's output on the one-byte content CR. -/
def crOut : List Nat := strBytes "\r\n// FileIntegrity: ACB39330\n"

/-- The stamped form of the content `"hello\n"`. -/
def helloStamped : List Nat := strBytes "hello\n// FileIntegrity: 3610A686\n"

/-- Sixty-eight bytes: a stale zero marker line followed by forty `a` bytes
and a newline. -/
def c68 : List Nat := strBytes "// FileIntegrity: 00000000\n" ++ List.replicate 40 97 ++ [10]

/-- A window holding two well-formed marker lines. -/
def twoMarkerWin : List Nat :=
  strBytes "// FileIntegrity: 00000000\n// FileIntegrity: 11111111\n"

/-- A window that is exactly one marker line with a stale value. -/
def markerOnlyWin : List Nat := strBytes "// FileIntegrity: 00000001\n"

/-- A first read larger than the window size. -/
def bigChunk : List Nat := List.replicate 64 97

/-! ## The claims -/

/-- C5: the matcher derived from a style finds the leftmost anchored
occurrence of a marker line (the source's pattern search returns the first
match, and every earlier position carries no anchored match), and any match
it reports has a payload of exactly eight uppercase hex digits that always
decodes, so a window whose candidate lines are malformed in the payload
yields no match at all: the Reader then fails and the Writer treats the
marker as absent. -/
theorem matcher_leftmost_wellformed (st : CommentStyle) (w : List Nat) (p : Nat)
    (h : findMarker st w = some p) :
    markerAt st w p = true
    ∧ (∀ q, q < p → markerAt st w q = false)
    ∧ (hexSlice st w p).length = 8
    ∧ (hexSlice st w p).all isUpHex = true
    ∧ (decodeHex8 (hexSlice st w p)).isSome = true := by
  obtain ⟨hm, _, hmin⟩ := findMarker_some h
  obtain ⟨h8, hx⟩ := markerAt_hexSlice hm
  exact ⟨hm, hmin, h8, hx, decodeHex8_isSome h8 hx⟩

set_option maxRecDepth 100000 in
/-- In a window holding two well-formed marker lines the matcher reports the
first, not the last: an anchored match also starts at position 27, yet the
reported match starts at position 0. -/
theorem matcher_not_last :
    findMarker GoStyle twoMarkerWin = some 0
    ∧ markerAt GoStyle twoMarkerWin 27 = true
    ∧ (0 : Nat) ≠ 27 := by decide

set_option maxRecDepth 100000 in
/-- Witness for C5 on a concrete window with one marker after a first line. -/
theorem matcher_leftmost_wellformed_witness :
    findMarker GoStyle (strBytes "x\n// FileIntegrity: ABCDEF01\n") = some 2
    ∧ (markerAt GoStyle (strBytes "x\n// FileIntegrity: ABCDEF01\n") 2 = true
      ∧ (∀ q, q < 2 → markerAt GoStyle (strBytes "x\n// FileIntegrity: ABCDEF01\n") q = false)
      ∧ (hexSlice GoStyle (strBytes "x\n// FileIntegrity: ABCDEF01\n") 2).length = 8
      ∧ (hexSlice GoStyle (strBytes "x\n// FileIntegrity: ABCDEF01\n") 2).all isUpHex = true
      ∧ (decodeHex8 (hexSlice GoStyle (strBytes "x\n// FileIntegrity: ABCDEF01\n") 2)).isSome
          = true) :=
  ⟨by decide,
   matcher_leftmost_wellformed GoStyle (strBytes "x\n// FileIntegrity: ABCDEF01\n") 2
     (by decide)⟩

/-- C7: on zero-length input delivered by a well-behaved reader, the Writer's
streaming pass succeeds, emits exactly one marker line carrying the CRC-32 of
the empty byte sequence — rendered as the eight digits 00000000 — and reports
a modification (never a no-op); the Reader's streaming pass on the same input
returns the empty-file error rather than a validity boolean. -/
theorem empty_input (cfg : Config) (cs : List (List Nat))
    (hflat : cs.flatten = []) (hgood : goodDeliveryB cs = true) :
    processStreamChunks cfg cs
        = some (createComment cfg.style (crc32 []) [10], false)
    ∧ verifyStreamChunks cfg cs = some (Except.error "empty file")
    ∧ createComment cfg.style (crc32 []) [10]
        = cfg.style.pre ++ keyBytes ++ strBytes "00000000" ++ cfg.style.suf ++ [10] := by
  have hcases : cs = [] ∨ cs = [[]] := by
    cases cs with
    | nil => exact Or.inl rfl
    | cons c rest =>
      right
      rw [List.flatten_cons, List.append_eq_nil] at hflat
      cases rest with
      | nil => rw [hflat.1]
      | cons d rest2 =>
        exfalso
        have hg := goodDelivery_cons hgood
        have hdl : (c :: d :: rest2).dropLast = c :: (d :: rest2).dropLast := rfl
        have hmem : c ∈ (c :: d :: rest2).dropLast := by
          rw [hdl]
          exact List.mem_cons_self c _
        have hne := List.all_eq_true.mp hg.2 c hmem
        rw [hflat.1] at hne
        simp at hne
  have hcc : createComment cfg.style (crc32 []) [10]
      = cfg.style.pre ++ keyBytes ++ strBytes "00000000" ++ cfg.style.suf ++ [10] := by
    unfold createComment
    rw [show hex8 (crc32 []) = strBytes "00000000" from by decide]
  rcases hcases with hcs | hcs <;> rw [hcs]
  · refine ⟨?_, ?_, hcc⟩
    · unfold processStreamChunks
      dsimp only [readChunk]
      rw [if_neg (by simp), if_pos (show List.length ([] : List Nat) = 0 from rfl)]
      rfl
    · unfold verifyStreamChunks
      dsimp only [readChunk]
      rw [if_neg (by simp), if_pos (show List.length ([] : List Nat) = 0 from rfl)]
  · refine ⟨?_, ?_, hcc⟩
    · unfold processStreamChunks
      dsimp only [readChunk]
      rw [if_neg (by simp), if_pos (show List.length ([] : List Nat) = 0 from rfl)]
      rfl
    · unfold verifyStreamChunks
      dsimp only [readChunk]
      rw [if_neg (by simp), if_pos (show List.length ([] : List Nat) = 0 from rfl)]

/-- Witness for C7 at the os.File delivery of an empty file: one zero-byte
read reporting end-of-stream. -/
theorem empty_input_witness :
    List.flatten ([[]] : List (List Nat)) = []
    ∧ goodDeliveryB [[]] = true
    ∧ (processStreamChunks DefaultConfig [[]]
          = some (createComment DefaultConfig.style (crc32 []) [10], false)
      ∧ verifyStreamChunks DefaultConfig [[]] = some (Except.error "empty file")
      ∧ createComment DefaultConfig.style (crc32 []) [10]
          = DefaultConfig.style.pre ++ keyBytes ++ strBytes "00000000"
              ++ DefaultConfig.style.suf ++ [10]) :=
  ⟨rfl, by decide, empty_input DefaultConfig [[]] rfl (by decide)⟩

/-- C8: the Reader's window verdict is a trichotomy: valid = true exactly
when a marker is found and its decoded payload equals the checksum computed
over the content before it (with one trailing line ending stripped); valid =
false with no error when a marker is found, decodes, and the values differ;
and an error — not a boolean — when no marker is found or its payload does
not decode. -/
theorem verify_trichotomy (cfg : Config) (hs : Nat) (w : List Nat) :
    (verifyWindow cfg hs w = Except.ok true
      ↔ ∃ p stored, findMarker cfg.style w = some p
          ∧ decodeHex8 (hexSlice cfg.style w p) = some stored
          ∧ crcFinal (crcUpd hs (stripLE (w.take p))) = stored)
    ∧ (∀ p stored, findMarker cfg.style w = some p →
        decodeHex8 (hexSlice cfg.style w p) = some stored →
        crcFinal (crcUpd hs (stripLE (w.take p))) ≠ stored →
        verifyWindow cfg hs w = Except.ok false)
    ∧ (findMarker cfg.style w = none →
        verifyWindow cfg hs w = Except.error "no integrity comment found")
    ∧ (∀ p, findMarker cfg.style w = some p →
        decodeHex8 (hexSlice cfg.style w p) = none →
        verifyWindow cfg hs w = Except.error "invalid CRC format") := by
  have hnone : findMarker cfg.style w = none →
      verifyWindow cfg hs w = Except.error "no integrity comment found" := by
    intro hf
    unfold verifyWindow
    rw [hf]
  have hbad : ∀ p, findMarker cfg.style w = some p →
      decodeHex8 (hexSlice cfg.style w p) = none →
      verifyWindow cfg hs w = Except.error "invalid CRC format" := by
    intro p hf hd
    unfold verifyWindow
    rw [hf]
    dsimp only
    rw [hd]
  refine ⟨⟨?_, ?_⟩, ?_, hnone, hbad⟩
  · intro h
    cases hf : findMarker cfg.style w with
    | none =>
      rw [hnone hf] at h
      simp at h
    | some p =>
      cases hd : decodeHex8 (hexSlice cfg.style w p) with
      | none =>
        rw [hbad p hf hd] at h
        simp at h
      | some stored =>
        rw [verifyWindow_eq hs hf hd] at h
        simp only [Except.ok.injEq] at h
        exact ⟨p, stored, rfl, hd, by simpa using h⟩
  · rintro ⟨p, stored, hf, hd, he⟩
    rw [verifyWindow_eq hs hf hd, he]
    simp
  · intro p stored hf hd hne
    rw [verifyWindow_eq hs hf hd]
    have hb : (crcFinal (crcUpd hs (stripLE (w.take p))) == stored) = false := by
      simp [hne]
    rw [hb]

/-- Witness for C8 at a window with no marker line. -/
theorem verify_trichotomy_witness :
    findMarker DefaultConfig.style (strBytes "abc") = none
    ∧ verifyWindow DefaultConfig crcInit (strBytes "abc")
        = Except.error "no integrity comment found" :=
  ⟨by decide, (verify_trichotomy DefaultConfig crcInit (strBytes "abc")).2.2.1 (by decide)⟩

/-- C9: whenever the engine reports a no-op, ProcessFile removes the
temporary file and performs no rename, chmod, or write on the target path:
the target keeps its bytes and every captured metadata field, including the
modification time, and the call reports success. -/
theorem noop_frame (cfg : Config) (tgt : TargetFile) (cs : List (List Nat)) (now : Nat)
    (out : List Nat) (h : processStreamChunks cfg cs = some (out, true)) :
    processFileFS cfg tgt cs now = (tgt, false, true) := by
  unfold processFileFS
  rw [h]

set_option maxRecDepth 1000000 in
/-- Witness for C9 on an already-stamped file: a no-op run leaves a target
with distinct metadata untouched. -/
theorem noop_frame_witness :
    processStreamChunks DefaultConfig [helloStamped, []] = some (helloStamped, true)
    ∧ processFileFS DefaultConfig ⟨[7], ⟨420, 1, 2, 3⟩⟩ [helloStamped, []] 9
        = (⟨[7], ⟨420, 1, 2, 3⟩⟩, false, true) :=
  ⟨by decide,
   noop_frame DefaultConfig ⟨[7], ⟨420, 1, 2, 3⟩⟩ [helloStamped, []] 9 helloStamped
     (by decide)⟩

/-- C10 (corrected): the buffer slicing of both streaming loops stays in
bounds — both passes complete without the faulting result — for every
delivery whose first read carries at least windowSize bytes (and at most
BufferSize), with every later read at most BufferSize - windowSize bytes;
a delivery of single bytes instead drives the subsequent-chunk slice out of
bounds. -/
theorem loop_safety (cfg : Config) (cs : List (List Nat))
    (h : safeDeliveryB cfg cs = true) :
    (processStreamChunks cfg cs).isSome = true
    ∧ (verifyStreamChunks cfg cs).isSome = true :=
  stream_safe h

/-- A well-behaved reader that returns one byte per read faults both passes:
after the second read only two bytes are buffered, less than the window
size, and the slide's slice bound underflows (a Go slice-bounds panic). -/
theorem loop_safety_counterexample :
    goodDeliveryB [[97], [97], []] = true
    ∧ processStreamChunks DefaultConfig [[97], [97], []] = none
    ∧ verifyStreamChunks DefaultConfig [[97], [97], []] = none := by decide

/-- Witness for C10 on a sixty-four-byte first read. -/
theorem loop_safety_witness :
    safeDeliveryB DefaultConfig [bigChunk, []] = true
    ∧ ((processStreamChunks DefaultConfig [bigChunk, []]).isSome = true
      ∧ (verifyStreamChunks DefaultConfig [bigChunk, []]).isSome = true) :=
  ⟨by decide, loop_safety DefaultConfig [bigChunk, []] (by decide)⟩

/-- C1 (corrected): round trip for marker-free content not ending in CR:
for every style without line-ending bytes, every non-empty content with no
occurrence of the marker pattern and not ending in a CR byte, and every
completing well-behaved delivery of the content and of the Writer's output,
the Writer's streaming pass followed by the Reader's streaming pass yields
valid = true with no error. -/
theorem roundtrip_streaming (cfg : Config) (cs csOut : List (List Nat))
    (out : List Nat) (b : Bool) (r : Except String Bool)
    (hst : styleOk cfg.style = true)
    (hC : cs.flatten ≠ [])
    (hfree : rawMarkerFree cfg.style cs.flatten = true)
    (hcr : cs.flatten.getLast? ≠ some 13)
    (hgood : goodDeliveryB cs = true)
    (hp : processStreamChunks cfg cs = some (out, b))
    (hgood2 : goodDeliveryB csOut = true)
    (hflat2 : csOut.flatten = out)
    (hv : verifyStreamChunks cfg csOut = some r) :
    r = Except.ok true := by
  have h1 : (out, b) = processRef cfg cs.flatten := processStreamChunks_ref hgood hp
  obtain ⟨add, le, hPR, hadd, hle, hlast, hstrip⟩ := processRef_fresh hfree hC hcr
  rw [hPR, Prod.mk.injEq] at h1
  have hadd2 : add = [] ∨ add = [10] ∨ add = [13, 10] := by
    rcases hadd with h | h
    · exact Or.inl h
    · rcases hle with h' | h'
      · exact Or.inr (Or.inl (h.trans h'))
      · exact Or.inr (Or.inr (h.trans h'))
  have h2 : r = verifyRef cfg csOut.flatten := verifyStreamChunks_ref hgood2 hv
  rw [hflat2, h1.1] at h2
  rw [h2]
  exact verifyRef_stamped hst hfree hadd2 hle hlast hstrip rfl (crc32_lt _)

set_option maxRecDepth 1000000 in
/-- Content consisting of one CR byte breaks the unrestricted round trip:
the Writer checksums the CR (the content does not end in LF) and appends an
LF before the fresh marker, but the Reader strips the resulting CR LF pair as
one line ending and checksums nothing, so verification answers valid =
false. -/
theorem roundtrip_counterexample :
    processStreamChunks DefaultConfig [[13], []] = some (crOut, false)
    ∧ verifyStreamChunks DefaultConfig [crOut, []] = some (Except.ok false) := by decide

set_option maxRecDepth 1000000 in
/-- Witness for C1 on the content hello-LF under os.File deliveries. -/
theorem roundtrip_streaming_witness :
    processStreamChunks DefaultConfig [strBytes "hello\n", []]
        = some (helloStamped, false)
    ∧ (Except.ok true : Except String Bool) = Except.ok true :=
  ⟨by decide,
   roundtrip_streaming DefaultConfig [strBytes "hello\n", []] [helloStamped, []]
     helloStamped false (Except.ok true) (by decide) (by decide) (by decide) (by decide)
     (by decide) (by decide) (by decide) (by decide) (by decide)⟩

set_option maxRecDepth 1000000 in
/-- C2 (corrected): stamping the content package-main-LF with the Go style
appends the marker line directly after the existing final newline — no blank
line is inserted — and the checksum is the CRC-32/IEEE of the twelve bytes
before that newline, rendered 7FE7DFB2; verifying the output yields valid =
true. -/
theorem package_main_scenario :
    processStreamChunks DefaultConfig [strBytes "package main\n", []]
      = some (strBytes "package main\n"
          ++ createComment GoStyle (crc32 (strBytes "package main")) [10], false)
    ∧ crc32 (strBytes "package main") = 0x7FE7DFB2
    ∧ strBytes "package main\n"
          ++ createComment GoStyle (crc32 (strBytes "package main")) [10]
        = strBytes "package main\n// FileIntegrity: 7FE7DFB2\n"
    ∧ verifyStreamChunks DefaultConfig
        [strBytes "package main\n// FileIntegrity: 7FE7DFB2\n", []]
      = some (Except.ok true) := by decide

set_option maxRecDepth 1000000 in
/-- The output claimed by the spec — a blank line before the marker and the
CRC taken over all thirteen bytes including the trailing newline — is not
what the Writer produces. -/
theorem package_main_counterexample :
    processStreamChunks DefaultConfig [strBytes "package main\n", []]
      ≠ some (strBytes "package main\n\n// FileIntegrity: "
          ++ hex8 (crc32 (strBytes "package main\n")) ++ [10], false) := by decide

/-- C3 (corrected): idempotence for marker-free content not ending in CR:
a second Writer pass over the first pass's output reproduces it byte for
byte and reports a no-op, so ProcessFile discards the temporary file and
leaves the target file, its metadata and its modification time unchanged. -/
theorem stamp_idempotent (cfg : Config) (cs cs2 : List (List Nat))
    (out : List Nat) (b : Bool) (r2 : List Nat × Bool) (tgt : TargetFile) (now : Nat)
    (hst : styleOk cfg.style = true)
    (hC : cs.flatten ≠ [])
    (hfree : rawMarkerFree cfg.style cs.flatten = true)
    (hcr : cs.flatten.getLast? ≠ some 13)
    (hgood : goodDeliveryB cs = true)
    (hp : processStreamChunks cfg cs = some (out, b))
    (hgood2 : goodDeliveryB cs2 = true)
    (hflat2 : cs2.flatten = out)
    (hp2 : processStreamChunks cfg cs2 = some r2) :
    r2 = (out, true) ∧ processFileFS cfg tgt cs2 now = (tgt, false, true) := by
  have h1 : (out, b) = processRef cfg cs.flatten := processStreamChunks_ref hgood hp
  obtain ⟨add, le, hPR, hadd, hle, hlast, hstrip⟩ := processRef_fresh hfree hC hcr
  rw [hPR, Prod.mk.injEq] at h1
  have hadd2 : add = [] ∨ add = [10] ∨ add = [13, 10] := by
    rcases hadd with h | h
    · exact Or.inl h
    · rcases hle with h' | h'
      · exact Or.inr (Or.inl (h.trans h'))
      · exact Or.inr (Or.inr (h.trans h'))
  have h2 : r2 = processRef cfg cs2.flatten := processStreamChunks_ref hgood2 hp2
  rw [hflat2, h1.1] at h2
  have h3 : r2 = (out, true) := by
    rw [h2, processRef_stamped hst hfree hadd2 hle hlast hstrip rfl (crc32_lt _), h1.1]
  refine ⟨h3, ?_⟩
  rw [h3] at hp2
  unfold processFileFS
  rw [hp2]

set_option maxRecDepth 1000000 in
/-- On the one-byte content CR the second Writer pass is not a no-op and its
output differs from the first pass's output, refuting unrestricted
idempotence. -/
theorem stamp_idempotent_counterexample :
    processStreamChunks DefaultConfig [[13], []] = some (crOut, false)
    ∧ processStreamChunks DefaultConfig [crOut, []]
        = some (strBytes "\r\n// FileIntegrity: 00000000\r\n", false)
    ∧ strBytes "\r\n// FileIntegrity: 00000000\r\n" ≠ crOut := by decide

set_option maxRecDepth 1000000 in
/-- Witness for C3 on the content hello-LF: the restamp is a verbatim no-op
and the filesystem step leaves the target untouched. -/
theorem stamp_idempotent_witness :
    processStreamChunks DefaultConfig [helloStamped, []] = some (helloStamped, true)
    ∧ ((helloStamped, true) = (helloStamped, true)
      ∧ processFileFS DefaultConfig ⟨[0], ⟨420, 1, 2, 3⟩⟩ [helloStamped, []] 7
          = (⟨[0], ⟨420, 1, 2, 3⟩⟩, false, true)) :=
  ⟨by decide,
   stamp_idempotent DefaultConfig [strBytes "hello\n", []] [helloStamped, []]
     helloStamped false (helloStamped, true) ⟨[0], ⟨420, 1, 2, 3⟩⟩ 7 (by decide) (by decide)
     (by decide) (by decide) (by decide) (by decide) (by decide) (by decide) (by decide)⟩

/-- C4 (corrected): streaming refinement on well-behaved deliveries: for
every configuration and every delivery in which each read before
end-of-stream returns at least one byte and end-of-stream is a separate
zero-byte read, a completing run of either streaming loop agrees with the
in-memory reference — every byte before the final window is checksummed and
written exactly once, never lost or duplicated at chunk boundaries. -/
theorem streaming_refinement (cfg : Config) (cs : List (List Nat))
    (hgood : goodDeliveryB cs = true) :
    (∀ r, processStreamChunks cfg cs = some r → r = processRef cfg cs.flatten)
    ∧ (∀ r, verifyStreamChunks cfg cs = some r → r = verifyRef cfg cs.flatten) :=
  ⟨fun _ h => processStreamChunks_ref hgood h, fun _ h => verifyStreamChunks_ref hgood h⟩

set_option maxRecDepth 1000000 in
/-- A reader that returns the whole sixty-eight-byte content together with
end-of-stream on the first read makes the loop exit before ever sliding: the
final window is the whole content, a stale marker near its start is taken
over the loop's empty checksum and reported as a no-op, while the in-memory
reference restamps. -/
theorem streaming_refinement_counterexample :
    processStreamChunks DefaultConfig [c68] = some (c68, true)
    ∧ (processRef DefaultConfig c68).2 = false := by decide

set_option maxRecDepth 1000000 in
/-- Witness for C4 on a two-byte content under an os.File delivery. -/
theorem streaming_refinement_witness :
    goodDeliveryB [strBytes "ab", []] = true
    ∧ ((∀ r, processStreamChunks DefaultConfig [strBytes "ab", []] = some r →
          r = processRef DefaultConfig (List.flatten [strBytes "ab", []]))
      ∧ (∀ r, verifyStreamChunks DefaultConfig [strBytes "ab", []] = some r →
          r = verifyRef DefaultConfig (List.flatten [strBytes "ab", []]))) :=
  ⟨by decide, streaming_refinement DefaultConfig [strBytes "ab", []] (by decide)⟩

/-- C6 (corrected): both passes strip exactly one trailing line ending of
contentPart from the checksum when one is present — a final CRLF counts as
one line ending and both bytes are stripped, a lone LF strips one byte, and
content without a trailing line ending is checksummed whole.  The Writer
sets needsNewline exactly when contentPart is non-empty and lacks a trailing
LF, and then inserts one detected line ending before the fresh marker; for
empty contentPart nothing is inserted.  The Reader applies the same
stripping rule to the bytes before the marker. -/
theorem strip_rule_shared (cfg : Config) (hs : Nat) (w : List Nat) :
    hsAfter cfg hs w = crcUpd hs (stripLE (cpOf cfg w))
    ∧ (∀ c : List Nat, stripLE (c ++ [13, 10]) = c)
    ∧ (∀ c : List Nat, c.getLast? ≠ some 13 → stripLE (c ++ [10]) = c)
    ∧ (∀ l : List Nat, l.getLast? ≠ some 10 → stripLE l = l)
    ∧ (needsNLOf cfg w = true ↔ 0 < (cpOf cfg w).length ∧ (cpOf cfg w).getLast? ≠ some 10)
    ∧ ((finalizeWindow cfg hs w).2 = false →
        (finalizeWindow cfg hs w).1
          = cpOf cfg w ++ (if needsNLOf cfg w then leOf w else [])
              ++ createComment cfg.style (calcOf cfg hs w) (leOf w))
    ∧ (∀ p stored, findMarker cfg.style w = some p →
        decodeHex8 (hexSlice cfg.style w p) = some stored →
        verifyWindow cfg hs w
          = Except.ok (crcFinal (crcUpd hs (stripLE (w.take p))) == stored)) := by
  refine ⟨hsAfter_eq_strip cfg hs w, stripLE_crlf, fun c hc => stripLE_lf hc,
    fun l hl => stripLE_of_ne hl, ?_, ?_, fun p stored hp hd => verifyWindow_eq hs hp hd⟩
  · simp [needsNLOf]
  · intro hno
    unfold finalizeWindow at hno ⊢
    by_cases hc : existOf cfg w = some (calcOf cfg hs w)
    · rw [if_pos hc] at hno
      simp at hno
    · rw [if_neg hc]

set_option maxRecDepth 1000000 in
/-- When the final window is exactly a stale marker line, contentPart is
empty and carries no trailing line ending, yet needsNewline stays unset and
the restamped output inserts nothing before the fresh marker. -/
theorem strip_rule_counterexample :
    cpOf DefaultConfig markerOnlyWin = []
    ∧ ([] : List Nat).getLast? ≠ some 10
    ∧ needsNLOf DefaultConfig markerOnlyWin = false
    ∧ (finalizeWindow DefaultConfig crcInit markerOnlyWin).2 = false
    ∧ (finalizeWindow DefaultConfig crcInit markerOnlyWin).1
        = strBytes "// FileIntegrity: 00000000\n" := by decide

set_option maxRecDepth 1000000 in
/-- Witness for C6: the CRLF rule on concrete bytes and the needsNewline
condition on a window of plain content. -/
theorem strip_rule_shared_witness :
    stripLE (strBytes "hi" ++ [13, 10]) = strBytes "hi"
    ∧ needsNLOf DefaultConfig (strBytes "abc") = true :=
  ⟨(strip_rule_shared DefaultConfig 0 (strBytes "abc")).2.1 (strBytes "hi"),
   ((strip_rule_shared DefaultConfig 0 (strBytes "abc")).2.2.2.2.1).mpr (by decide)⟩
